import Mathlib

/-
Verification of the quizphere quiz-editor against its specification.

The development shallowly embeds the two source files:
  * `src/components/QuizEditor/question-types/PuzzleEditor.tsx`
    (choice-list mutations: add, delete, drag-and-drop reorder, shuffle,
    per-choice text edit), and
  * the `QuizEditor` component (question-list mutations and the
    `handleSave` delete-then-recreate save pipeline).

Conventions of the embedding:
  * TypeScript arrays become `List`, optional (possibly `undefined`)
    fields become `Option`.
  * `Math.random()` sort keys are modelled by an arbitrary key
    assignment `keys : Nat → Int`, one key per list position, and the
    ECMAScript stable comparator sort by `List.mergeSort`.
  * `crypto.randomUUID()` results are passed in as explicit `fresh`
    identifier arguments; freshness is an explicit hypothesis.
  * The asynchronous save pipeline is modelled as a sequential trace of
    requests: the n-th `fetch` of a run reads its result from an
    environment `env : Nat → FetchResult`.  `await` sequencing is
    therefore sequencing of the trace by construction.
  * `localStorage.getItem/setItem('currentQuizId')` is the
    `currentQuizId : Option String` component of the state.
  * The TS `updatedAt: new Date()` field is wall-clock time and is
    omitted from the `Quiz` record; no claim mentions it.
-/

namespace Quizphere

/- Data model, from `types/quiz.ts` as used by the two embedded source
files and described in spec section 3 (the type declarations themselves
are not part of the provided sources; field set taken from the uses in
`PuzzleEditor.tsx` / `QuizEditor.tsx` and spec section 3).
`explanationText` embeds the TS field `explanation` (optional string). -/

structure Choice where
  id : String
  text : String
  isCorrect : Bool
  min : Option Int
  max : Option Int
  correctValue : Option Int
  order : Nat
deriving DecidableEq

structure Question where
  id : String
  type : String
  text : String
  explanationText : Option String
  imageUrls : List String
  choices : List Choice
deriving DecidableEq

structure Quiz where
  id : String
  title : String
  language : String
  type : String
  status : String
  timeLimit : Option Nat
  points : Option Nat
  questions : List Question
deriving DecidableEq

/- ------------------------------------------------------------------ -/
/- PuzzleEditor.tsx                                                    -/
/- ------------------------------------------------------------------ -/

/- `handleAddChoice`: appends `{id: randomUUID(), text: '', isCorrect:
true, order: choices.length}`.  The fresh UUID is the `fresh` argument;
the fields not set are `undefined`, i.e. `none`. -/
def handleAddChoice (fresh : String) (choices : List Choice) : List Choice :=
  choices ++ [{ id := fresh, text := "", isCorrect := true,
                min := none, max := none, correctValue := none,
                order := choices.length }]

/- `handleDeleteChoice`: filter out the choice with the given id, then
re-number `order := index`. -/
def handleDeleteChoice (choiceId : String) (choices : List Choice) : List Choice :=
  (choices.filter (fun c => c.id != choiceId)).mapIdx (fun i c => { c with order := i })

/- `handleDrop`: when `draggedIndex` is `null` the handler returns
without calling `onChange`; this is the `none` result.  Otherwise it is
`splice(draggedIndex, 1)` followed by `splice(dropIndex, 0, dragged)`.
`Array.prototype.splice` clamps the insertion start to the array length,
hence the `min`.  `draggedIndex` is always an index of the rendered
list (it is set by `handleDragStart` from a rendered row), so the
embedding requires `choices[draggedIndex]?` to be `some`. -/
def handleDrop : Option Nat → Nat → List Choice → Option (List Choice)
  | none, _, _ => none
  | some di, dropIndex, choices =>
    match choices[di]? with
    | none => none
    | some draggedChoice =>
      let rest := choices.eraseIdx di
      some (rest.insertIdx (min dropIndex rest.length) draggedChoice)

/- `handleShuffle`: `[...choices].map(value => ({value, sort:
Math.random()})).sort((a, b) => a.sort - b.sort).map(({value}) =>
value)`.  One random key is drawn per position, in order; the
comparator orders by the key, and ECMAScript `sort` is stable, which
`List.mergeSort` is. -/
def handleShuffle (keys : Nat → Int) (choices : List Choice) : List Choice :=
  ((choices.zip ((List.range choices.length).map keys)).mergeSort
      (fun a b => decide (a.2 ≤ b.2))).map Prod.fst

/- The inline `onChange` of the text input: replace the text of the
choice with the given id, leaving every other field and choice alone. -/
def editChoiceText (choiceId : String) (newText : String)
    (choices : List Choice) : List Choice :=
  choices.map (fun c => if c.id == choiceId then { c with text := newText } else c)

/- Spec section 3 invariant: "Choice.order is dense and zero-based":
the multiset of `order` fields is exactly {0, ..., n-1}. -/
def OrdersDense (choices : List Choice) : Prop :=
  (choices.map Choice.order).Perm (List.range choices.length)

instance (choices : List Choice) : Decidable (OrdersDense choices) :=
  inferInstanceAs (Decidable (List.Perm _ _))

/- ------------------------------------------------------------------ -/
/- QuizEditor.tsx: question-list mutations                             -/
/- ------------------------------------------------------------------ -/

/- `handleQuestionUpdate`: replace every question whose id equals the
updated question's id. -/
def handleQuestionUpdate (updatedQuestion : Question) (quiz : Quiz) : Quiz :=
  { quiz with questions :=
      quiz.questions.map (fun q => if q.id == updatedQuestion.id then updatedQuestion else q) }

/- `handleAddQuestion`: append `{id: randomUUID(), type: quiz.type,
text: '', choices: []}`. -/
def handleAddQuestion (fresh : String) (quiz : Quiz) : Quiz :=
  { quiz with questions :=
      quiz.questions ++ [{ id := fresh, type := quiz.type, text := "",
                           explanationText := none, imageUrls := [], choices := [] }] }

/- `handleDeleteQuestion`: filter by id. -/
def handleDeleteQuestion (questionId : String) (quiz : Quiz) : Quiz :=
  { quiz with questions := quiz.questions.filter (fun q => q.id != questionId) }

/- `handleReorderQuestions`: replace the question list with the
reordered list supplied by the `QuestionList` drag (a permutation of
the current list). -/
def handleReorderQuestions (reordered : List Question) (quiz : Quiz) : Quiz :=
  { quiz with questions := reordered }

/- One PuzzleEditor mutation of a choice list, as an operation datum. -/
inductive ChoiceOp where
  | add (fresh : String)
  | del (choiceId : String)
  | drop (draggedIndex : Option Nat) (dropIndex : Nat)
  | shuffle (keys : Nat → Int)
  | editText (choiceId : String) (newText : String)

/- Apply a `ChoiceOp`.  For `drop`, a `none` result means `onChange`
was not called, so the list is unchanged. -/
def applyChoiceOp : ChoiceOp → List Choice → List Choice
  | .add fresh, cs => handleAddChoice fresh cs
  | .del cid, cs => handleDeleteChoice cid cs
  | .drop di dp, cs => (handleDrop di dp cs).getD cs
  | .shuffle keys, cs => handleShuffle keys cs
  | .editText cid t, cs => editChoiceText cid t cs

/- One editor operation on the whole quiz.  A `choiceOp` reaches the
quiz the way it does in the app: the `PuzzleEditor` for the selected
question (`quiz.questions.find(q => q.id === selectedQuestionId)`)
calls `onChange` with the new choice list, and the resulting question
(same id, new choices) goes through `handleQuestionUpdate`. -/
inductive EditorOp where
  | addQuestion (fresh : String)
  | deleteQuestion (questionId : String)
  | reorderQuestions (reordered : List Question)
  | choiceOp (questionId : String) (op : ChoiceOp)

def applyEditorOp : EditorOp → Quiz → Quiz
  | .addQuestion fresh, quiz => handleAddQuestion fresh quiz
  | .deleteQuestion qid, quiz => handleDeleteQuestion qid quiz
  | .reorderQuestions l, quiz => handleReorderQuestions l quiz
  | .choiceOp qid op, quiz =>
    match quiz.questions.find? (fun q => q.id == qid) with
    | none => quiz
    | some q => handleQuestionUpdate { q with choices := applyChoiceOp op q.choices } quiz

/- All client-side identifiers present in a quiz. -/
def questionIds (q : Question) : List String :=
  q.id :: q.choices.map Choice.id

def allIds (quiz : Quiz) : List String :=
  quiz.questions.flatMap questionIds

/- Identifiers introduced by a choice mutation (the
`crypto.randomUUID()` calls it performs). -/
def ChoiceOp.newIds : ChoiceOp → List String
  | .add fresh => [fresh]
  | _ => []

/- Identifiers introduced by an editor operation. -/
def opNewIds : EditorOp → List String
  | .addQuestion fresh => [fresh]
  | .choiceOp _ op => op.newIds
  | _ => []

/- Side conditions under which an operation runs in the app: a
generated UUID is fresh, and a drag reorder delivers a permutation of
the current question list. -/
def opFresh : EditorOp → Quiz → Prop
  | .addQuestion fresh, quiz => fresh ∉ allIds quiz
  | .choiceOp _ (.add fresh), quiz => fresh ∉ allIds quiz
  | .reorderQuestions l, quiz => l.Perm quiz.questions
  | _, _ => True

/- ------------------------------------------------------------------ -/
/- QuizEditor.tsx: the handleSave pipeline                             -/
/- ------------------------------------------------------------------ -/

/- Result of one `await fetch(...)`: an ok response carrying the id the
code reads out of the JSON body (`quiz_id` / `question_id`), a non-ok
response (`response.ok === false`), or a rejected promise (network
error), which in TS throws at the `await`. -/
inductive FetchResult where
  | ok (id : String)
  | notOk
  | netErr
deriving DecidableEq

def FetchResult.isOk : FetchResult → Bool
  | .ok _ => true
  | _ => false

/- Request bodies, field for field as in the `JSON.stringify` calls.
`QuestionBody.explanationText` carries the JSON key `explanation`. -/
structure QuizBody where
  user_id : String
  title : String
  language : String
  type : String
  status : String
  timeLimit : Nat
  points : Nat
deriving DecidableEq

structure QuestionBody where
  quiz_id : String
  type : String
  text : String
  explanationText : String
deriving DecidableEq

structure ImageBody where
  question_id : String
  image_url : String
deriving DecidableEq

structure ChoiceBody where
  question_id : String
  text : String
  is_correct : Bool
  min : Option Int
  max : Option Int
  correctValue : Option Int
  order : Nat
deriving DecidableEq

/- The five HTTP calls the pipeline makes. -/
inductive Request where
  | deleteQuiz (quizId : String)
  | postQuiz (body : QuizBody)
  | postQuestion (body : QuestionBody)
  | postImage (body : ImageBody)
  | postChoice (body : ChoiceBody)
deriving DecidableEq

def Request.isDelete : Request → Bool
  | .deleteQuiz _ => true
  | _ => false

/- Request shape: what spec section 4 describes of each request
(endpoint, plus the per-item payload that identifies it within its
question). -/
inductive ReqShape where
  | delete (quizId : String)
  | quiz
  | question (text : String)
  | image (url : String)
  | choice (text : String) (order : Nat)
deriving DecidableEq

def Request.shape : Request → ReqShape
  | .deleteQuiz qid => .delete qid
  | .postQuiz _ => .quiz
  | .postQuestion b => .question b.text
  | .postImage b => .image b.image_url
  | .postChoice b => .choice b.text b.order

/- Which results make the code throw out of the pipeline: the quiz and
question creates check `response.ok`; the delete ignores its result
(both branches only log); the image and choice creates never look at
the response, so only a rejected promise throws. -/
def fatalReq : Request → FetchResult → Bool
  | .deleteQuiz _, _ => false
  | .postQuiz _, f => !f.isOk
  | .postQuestion _, f => !f.isOk
  | .postImage _, f => decide (f = .netErr)
  | .postChoice _, f => decide (f = .netErr)

/- No issued request received a result the code treats as fatal;
`k` is the environment position of the first element of `tr`. -/
def noFatal (env : Nat → FetchResult) (k : Nat) (tr : List Request) : Prop :=
  ∀ i (h : i < tr.length), fatalReq (tr.get ⟨i, h⟩) (env (k + i)) = false

/- `x || d` on the TS side for numbers (0 is falsy). -/
def jsOrNat : Option Nat → Nat → Nat
  | none, d => d
  | some 0, d => d
  | some (n+1), _ => n + 1

/- `x || d` on the TS side for strings ('' is falsy). -/
def jsOrStr : Option String → String → String
  | none, d => d
  | some s, d => if s = "" then d else s

/- The quiz POST body built in step 2 of `handleSave`. -/
def quizBody (userId : String) (q : Quiz) : QuizBody :=
  { user_id := userId, title := q.title, language := q.language,
    type := q.type, status := "draft",
    timeLimit := jsOrNat q.timeLimit 30, points := jsOrNat q.points 10 }

/- The question POST body (`explanation: question.explanation || ''`). -/
def questionBody (quizId : String) (q : Question) : QuestionBody :=
  { quiz_id := quizId, type := q.type, text := q.text,
    explanationText := jsOrStr (Question.explanationText q) "" }

def choiceBody (questionId : String) (c : Choice) : ChoiceBody :=
  { question_id := questionId, text := c.text, is_correct := c.isCorrect,
    min := c.min, max := c.max, correctValue := c.correctValue, order := c.order }

inductive SaveStep where
  | quiz
  | questions
  | images
  | choices
deriving DecidableEq

structure SaveProgress where
  step : SaveStep
  current : Nat
  total : Nat
deriving DecidableEq

/- The two toasts `handleSave` can raise: the success toast and the
generic "Failed to save quiz. Please try again." error toast. -/
inductive Toast where
  | success
  | error
deriving DecidableEq

/- Component state touched by `handleSave` (plus the toast log). -/
structure SaveState where
  quiz : Quiz
  currentQuizId : Option String
  isSaving : Bool
  saveProgress : Option SaveProgress
  toasts : List Toast
deriving DecidableEq

/- The state threaded through the loops of the pipeline: the request
log of the run and the progress indicator. -/
structure LoopState where
  trace : List Request
  saveProgress : Option SaveProgress
deriving DecidableEq

/- Perform one `fetch`: log the request, read its result from the
environment at the position equal to the number of requests already
sent. -/
def issue (env : Nat → FetchResult) (ls : LoopState) (r : Request) :
    LoopState × FetchResult :=
  ({ ls with trace := ls.trace ++ [r] }, env ls.trace.length)

/- The image loop of step 3.  The response is not inspected: only a
rejected promise (`netErr`) escapes.  `j`/`total` drive the progress
indicator. -/
def postImages (env : Nat → FetchResult) (questionId : String) :
    List String → Nat → Nat → LoopState → LoopState × Bool
  | [], _, _, ls => (ls, true)
  | url :: rest, j, total, ls =>
    let ls1 : LoopState := { ls with saveProgress := some ⟨.images, j + 1, total⟩ }
    let p := issue env ls1 (.postImage ⟨questionId, url⟩)
    match p.2 with
    | .netErr => (p.1, false)
    | _ => postImages env questionId rest (j + 1) total p.1

/- The choice loop of step 3; like the image loop, the response is not
inspected. -/
def postChoices (env : Nat → FetchResult) (questionId : String) :
    List Choice → Nat → Nat → LoopState → LoopState × Bool
  | [], _, _, ls => (ls, true)
  | c :: rest, k, total, ls =>
    let ls1 : LoopState := { ls with saveProgress := some ⟨.choices, k + 1, total⟩ }
    let p := issue env ls1 (.postChoice (choiceBody questionId c))
    match p.2 with
    | .netErr => (p.1, false)
    | _ => postChoices env questionId rest (k + 1) total p.1

/- The question loop of step 3: POST the question, throw unless the
response is ok, read `question_id` from it, then run the image loop
(progress reset only when there are images, as in the source) and the
choice loop. -/
def saveQuestions (env : Nat → FetchResult) (quizId : String) :
    List Question → Nat → Nat → LoopState → LoopState × Bool
  | [], _, _, ls => (ls, true)
  | q :: rest, i, total, ls =>
    let ls1 : LoopState := { ls with saveProgress := some ⟨.questions, i + 1, total⟩ }
    let p := issue env ls1 (.postQuestion (questionBody quizId q))
    match p.2 with
    | .ok questionId =>
      let ls3 : LoopState :=
        if q.imageUrls.length > 0
        then { p.1 with saveProgress := some ⟨.images, 0, q.imageUrls.length⟩ }
        else p.1
      match postImages env questionId q.imageUrls 0 q.imageUrls.length ls3 with
      | (ls4, false) => (ls4, false)
      | (ls4, true) =>
        let ls5 : LoopState := { ls4 with saveProgress := some ⟨.choices, 0, q.choices.length⟩ }
        match postChoices env questionId q.choices 0 q.choices.length ls5 with
        | (ls6, false) => (ls6, false)
        | (ls6, true) => saveQuestions env quizId rest (i + 1) total ls6
    | _ => (p.1, false)

/- How one run of `handleSave` ends: the auth guard returned early, the
run returned `updatedQuiz` (after `onSave` and the success toast), or
an error was thrown to the caller (after the error toast). -/
inductive SaveOutcome where
  | notAuthed
  | saved (q : Quiz)
  | threw
deriving DecidableEq

structure RunResult where
  state : SaveState
  trace : List Request
  outcome : SaveOutcome
deriving DecidableEq

/- `handleSave`.  The guard runs before `setIsSaving(true)`; the
`finally` block sets `isSaving` back to `false` and clears the
progress, so on every non-guard exit the final state has
`isSaving = false` and `saveProgress = none`.  Step 1 issues the DELETE
only when `currentQuizId` is present and ignores its result (both the
non-ok branch and the catch only log).  Step 2 checks `response.ok`,
stores the returned `quiz_id` in local storage, and step 3 runs the
question loop.  On success the component state receives
`{...quiz, id: quizId, status: 'draft'}`. -/
def savePipeline (userId : String) (env : Nat → FetchResult)
    (s0 : SaveState) : RunResult :=
  let ls0 : LoopState := ⟨[], some ⟨.quiz, 0, 1⟩⟩
  let ls1 : LoopState :=
    match s0.currentQuizId with
    | some existingQuizId => (issue env ls0 (.deleteQuiz existingQuizId)).1
    | none => ls0
  let ls2 : LoopState := { ls1 with saveProgress := some ⟨.quiz, 1, 1⟩ }
  let p := issue env ls2 (.postQuiz (quizBody userId s0.quiz))
  match p.2 with
  | .ok quizId =>
    match saveQuestions env quizId s0.quiz.questions 0 s0.quiz.questions.length p.1 with
    | (ls4, true) =>
      let updatedQuiz : Quiz := { s0.quiz with id := quizId, status := "draft" }
      ⟨{ quiz := updatedQuiz, currentQuizId := some quizId, isSaving := false,
         saveProgress := none, toasts := s0.toasts ++ [.success] },
       ls4.trace, .saved updatedQuiz⟩
    | (ls4, false) =>
      ⟨{ quiz := s0.quiz, currentQuizId := some quizId, isSaving := false,
         saveProgress := none, toasts := s0.toasts ++ [.error] },
       ls4.trace, .threw⟩
  | _ =>
    ⟨{ quiz := s0.quiz, currentQuizId := s0.currentQuizId, isSaving := false,
       saveProgress := none, toasts := s0.toasts ++ [.error] },
     p.1.trace, .threw⟩

def handleSave (userId accessToken : String) (env : Nat → FetchResult)
    (s0 : SaveState) : RunResult :=
  if userId = "" ∨ accessToken = "" then ⟨s0, [], .notAuthed⟩
  else savePipeline userId env s0

/- The shape sequence spec section 4 predicts for one question. -/
def questionShapes (q : Question) : List ReqShape :=
  ReqShape.question q.text ::
    (q.imageUrls.map ReqShape.image ++
     q.choices.map (fun c => ReqShape.choice c.text c.order))

/- The shape sequence of a full successful run. -/
def expectedShapes (s0 : SaveState) : List ReqShape :=
  (match s0.currentQuizId with
   | some qid => [ReqShape.delete qid]
   | none => []) ++
  ReqShape.quiz :: s0.quiz.questions.flatMap questionShapes

/- Length of the optional delete prefix. -/
def deletePrefixLen (s0 : SaveState) : Nat :=
  match s0.currentQuizId with
  | some _ => 1
  | none => 0

/- ------------------------------------------------------------------ -/
/- Helper lemmas: list permutations                                    -/
/- ------------------------------------------------------------------ -/

theorem insertIdx_perm_cons {α : Type} (x : α) :
    ∀ (n : Nat) (l : List α), n ≤ l.length → (l.insertIdx n x).Perm (x :: l)
  | 0, l, _ => by simp
  | n + 1, [], h => by simp at h
  | n + 1, a :: t, h => by
    rw [List.insertIdx_succ_cons]
    exact ((insertIdx_perm_cons x n t (by simpa using h)).cons a).trans
      (List.Perm.swap x a t)

theorem cons_eraseIdx_perm {α : Type} (c : α) :
    ∀ (i : Nat) (l : List α), l[i]? = some c → (c :: l.eraseIdx i).Perm l
  | _, [], h => by simp at h
  | 0, a :: t, h => by
    simp at h
    simp [h]
  | i + 1, a :: t, h => by
    simp only [List.getElem?_cons_succ] at h
    rw [List.eraseIdx_cons_succ]
    exact (List.Perm.swap a c _).trans ((cons_eraseIdx_perm c i t h).cons a)

theorem handleDrop_perm (di dp : Nat) (cs r : List Choice)
    (h : handleDrop (some di) dp cs = some r) : r.Perm cs := by
  simp only [handleDrop] at h
  cases hc : cs[di]? with
  | none => rw [hc] at h; exact absurd h (by simp)
  | some c =>
    rw [hc] at h
    simp only [Option.some.injEq] at h
    subst h
    exact (insertIdx_perm_cons c _ _ (Nat.min_le_right _ _)).trans
      (cons_eraseIdx_perm c di cs hc)

theorem handleShuffle_perm (keys : Nat → Int) (cs : List Choice) :
    (handleShuffle keys cs).Perm cs := by
  unfold handleShuffle
  have h1 := List.mergeSort_perm (cs.zip ((List.range cs.length).map keys))
    (fun a b => decide (a.2 ≤ b.2))
  have h2 := h1.map Prod.fst
  rwa [List.map_fst_zip cs ((List.range cs.length).map keys) (by simp)] at h2

theorem ordersDense_of_perm {cs cs' : List Choice} (hp : cs'.Perm cs)
    (h : OrdersDense cs) : OrdersDense cs' := by
  unfold OrdersDense at *
  have := (hp.map Choice.order).trans h
  rwa [hp.length_eq]

theorem map_order_mapIdx (l : List Choice) :
    ((l.mapIdx (fun i c => { c with order := i })).map Choice.order) =
      List.range l.length := by
  apply List.ext_getElem
  · simp
  · intro i h1 h2
    simp [List.getElem_mapIdx]

/- ------------------------------------------------------------------ -/
/- Claims C1, C6, C10                                                  -/
/- ------------------------------------------------------------------ -/

/-- C1: for every choice list whose `order` fields form the dense
zero-based set {0, ..., n-1}, each PuzzleEditor mutation
(`handleAddChoice`, `handleDeleteChoice`, `handleDrop` when a drag is
in progress, `handleShuffle`, and the per-choice text edit) produces a
list whose `order` fields again form the dense zero-based set
{0, ..., m-1} for its new length m. -/
theorem puzzle_mutations_preserve_dense_orders
    (cs : List Choice) (fresh choiceId newText : String)
    (di dp : Nat) (keys : Nat → Int) (h : OrdersDense cs) :
    OrdersDense (handleAddChoice fresh cs) ∧
    OrdersDense (handleDeleteChoice choiceId cs) ∧
    (∀ r, handleDrop (some di) dp cs = some r → OrdersDense r) ∧
    OrdersDense (handleShuffle keys cs) ∧
    OrdersDense (editChoiceText choiceId newText cs) := by
  refine ⟨?_, ?_, ?_, ?_, ?_⟩
  · unfold OrdersDense handleAddChoice
    simp only [List.map_append, List.map_cons, List.map_nil,
      List.length_append, List.length_cons, List.length_nil]
    rw [List.range_succ]
    exact h.append (List.Perm.refl _)
  · unfold OrdersDense handleDeleteChoice
    rw [map_order_mapIdx, List.length_mapIdx]
  · intro r hr
    exact ordersDense_of_perm (handleDrop_perm di dp cs r hr) h
  · exact ordersDense_of_perm (handleShuffle_perm keys cs) h
  · unfold OrdersDense editChoiceText
    rw [List.map_map, List.length_map]
    have : cs.map (Choice.order ∘ fun c =>
        if c.id == choiceId then { c with text := newText } else c) =
        cs.map Choice.order := by
      apply List.map_congr_left
      intro c _
      by_cases hc : c.id == choiceId <;> simp [Function.comp, hc]
    rw [this]
    exact h

/-- C1 witness: a concrete dense choice list on which every mutation of
the conjunction applies. -/
theorem puzzle_mutations_preserve_dense_orders_witness :
    OrdersDense [⟨"a", "t1", true, none, none, none, 0⟩,
                 ⟨"b", "t2", true, none, none, none, 1⟩] ∧
    (OrdersDense (handleAddChoice "c"
        [⟨"a", "t1", true, none, none, none, 0⟩,
         ⟨"b", "t2", true, none, none, none, 1⟩]) ∧
     OrdersDense (handleDeleteChoice "a"
        [⟨"a", "t1", true, none, none, none, 0⟩,
         ⟨"b", "t2", true, none, none, none, 1⟩]) ∧
     (∀ r, handleDrop (some 0) 1
        [⟨"a", "t1", true, none, none, none, 0⟩,
         ⟨"b", "t2", true, none, none, none, 1⟩] = some r → OrdersDense r) ∧
     OrdersDense (handleShuffle (fun i => (1 : Int) - i)
        [⟨"a", "t1", true, none, none, none, 0⟩,
         ⟨"b", "t2", true, none, none, none, 1⟩]) ∧
     OrdersDense (editChoiceText "b" "new"
        [⟨"a", "t1", true, none, none, none, 0⟩,
         ⟨"b", "t2", true, none, none, none, 1⟩])) :=
  ⟨by decide,
   puzzle_mutations_preserve_dense_orders _ "c" _ _ 0 1 _ (by decide)⟩

/-- C6: for every choice list and every assignment of random sort keys,
`handleShuffle` produces a permutation of the input list: same length,
same multiset of choice elements, each element unmodified. -/
theorem handleShuffle_is_permutation (keys : Nat → Int) (cs : List Choice) :
    (handleShuffle keys cs).Perm cs :=
  handleShuffle_perm keys cs

/-- C10: `handleDrop` with no drag in progress leaves the list
unchanged (`onChange` is not called, the `none` result); with a drag in
progress and valid indices it emits the input list with the dragged
element moved to `dropIndex` and the relative order of all other
elements preserved (erasing position `dropIndex` from the output gives
exactly the input minus the dragged element). -/
theorem handleDrop_moves_dragged (cs : List Choice) (di dp : Nat)
    (hdi : di < cs.length) (hdp : dp < cs.length) :
    handleDrop none dp cs = none ∧
    ∃ r, handleDrop (some di) dp cs = some r ∧
      r.length = cs.length ∧
      r[dp]? = cs[di]? ∧
      r.eraseIdx dp = cs.eraseIdx di := by
  refine ⟨rfl, ?_⟩
  have hc : cs[di]? = some (cs.get ⟨di, hdi⟩) := by
    rw [List.getElem?_eq_getElem hdi, List.get_eq_getElem]
  have hrest : (cs.eraseIdx di).length = cs.length - 1 :=
    List.length_eraseIdx_of_lt hdi
  have hdple : dp ≤ (cs.eraseIdx di).length := by omega
  have hmin : min dp (cs.eraseIdx di).length = dp := Nat.min_eq_left hdple
  refine ⟨(cs.eraseIdx di).insertIdx dp (cs.get ⟨di, hdi⟩), ?_, ?_, ?_, ?_⟩
  · simp only [handleDrop]
    rw [hc]
    simp only [hmin]
  · rw [List.length_insertIdx dp _ hdple]
    omega
  · rw [hc, List.getElem?_eq_getElem
      (by rw [List.length_insertIdx dp _ hdple]; omega)]
    rw [List.getElem_insertIdx_self _ _ _ hdple]
  · exact List.eraseIdx_insertIdx dp _

/-- C10 witness: a concrete three-element drag of index 0 onto index 2. -/
theorem handleDrop_moves_dragged_witness :
    (0 < 3 ∧ 2 < 3) ∧
    (handleDrop none 2
        [⟨"a", "t1", true, none, none, none, 0⟩,
         ⟨"b", "t2", true, none, none, none, 1⟩,
         ⟨"c", "t3", true, none, none, none, 2⟩] = none ∧
     ∃ r, handleDrop (some 0) 2
        [⟨"a", "t1", true, none, none, none, 0⟩,
         ⟨"b", "t2", true, none, none, none, 1⟩,
         ⟨"c", "t3", true, none, none, none, 2⟩] = some r ∧
      r.length = 3 ∧
      r[2]? = some ⟨"a", "t1", true, none, none, none, 0⟩ ∧
      r.eraseIdx 2 = [⟨"b", "t2", true, none, none, none, 1⟩,
                      ⟨"c", "t3", true, none, none, none, 2⟩]) :=
  ⟨⟨by decide, by decide⟩, by
    have := handleDrop_moves_dragged
      [⟨"a", "t1", true, none, none, none, 0⟩,
       ⟨"b", "t2", true, none, none, none, 1⟩,
       ⟨"c", "t3", true, none, none, none, 2⟩] 0 2 (by decide) (by decide)
    simpa using this⟩

/- ------------------------------------------------------------------ -/
/- Helper lemmas: subpermutations and identifier bookkeeping           -/
/- ------------------------------------------------------------------ -/

theorem subperm_nodup {α : Type} {l₁ l₂ : List α} (h : l₁.Subperm l₂)
    (hnd : l₂.Nodup) : l₁.Nodup := by
  obtain ⟨w, hw, hs⟩ := h
  exact hw.nodup (hs.nodup hnd)

theorem subperm_append_both {α : Type} {l₁ l₂ r₁ r₂ : List α}
    (h₁ : l₁.Subperm l₂) (h₂ : r₁.Subperm r₂) :
    (l₁ ++ r₁).Subperm (l₂ ++ r₂) := by
  obtain ⟨u, hu, hsu⟩ := h₁
  obtain ⟨v, hv, hsv⟩ := h₂
  exact ⟨u ++ v, hu.append hv, hsu.append hsv⟩

theorem subperm_cons_both {α : Type} (a : α) {l₁ l₂ : List α}
    (h : l₁.Subperm l₂) : (a :: l₁).Subperm (a :: l₂) := by
  obtain ⟨w, hw, hs⟩ := h
  exact ⟨a :: w, hw.cons a, hs.cons₂ a⟩

theorem sublist_flatMap {α β : Type} (f : α → List β) {l₁ l₂ : List α}
    (h : l₁.Sublist l₂) : (l₁.flatMap f).Sublist (l₂.flatMap f) := by
  induction h with
  | slnil => exact List.Sublist.refl _
  | cons a _ ih =>
    rw [List.flatMap_cons]
    exact ih.trans (List.sublist_append_right _ _)
  | cons₂ a _ ih =>
    rw [List.flatMap_cons, List.flatMap_cons]
    exact (List.Sublist.refl (f a)).append ih

theorem map_if_no_match {α : Type} {p : α → Bool} {f : α → α} :
    ∀ {l : List α}, (∀ a ∈ l, p a = false) →
      l.map (fun a => if p a then f a else a) = l
  | [], _ => rfl
  | a :: t, h => by
    simp only [List.map_cons]
    rw [if_neg (by simp [h a (List.mem_cons_self a t)]),
      map_if_no_match (fun x hx => h x (List.mem_cons_of_mem a hx))]

theorem perm_append_swap {α : Type} (A N B : List α) :
    (A ++ (N ++ B)).Perm (N ++ (A ++ B)) := by
  rw [← List.append_assoc, ← List.append_assoc]
  exact List.perm_append_comm.append_right B

theorem map_id_mapIdx_setOrder (l : List Choice) :
    ((l.mapIdx (fun i c => { c with order := i })).map Choice.id) =
      l.map Choice.id := by
  apply List.ext_getElem
  · simp
  · intro i h1 h2
    simp [List.getElem_mapIdx]

/- Every PuzzleEditor choice mutation either keeps the choice ids or,
for `handleAddChoice`, adds exactly the fresh one: the ids of the
result are a subpermutation of the new ids plus the old ids. -/
theorem choice_ids_subperm (op : ChoiceOp) (cs : List Choice) :
    ((applyChoiceOp op cs).map Choice.id).Subperm
      (op.newIds ++ cs.map Choice.id) := by
  cases op with
  | add fresh =>
    show ((handleAddChoice fresh cs).map Choice.id).Subperm _
    unfold handleAddChoice
    rw [List.map_append]
    exact List.perm_append_comm.subperm
  | del cid =>
    show ((handleDeleteChoice cid cs).map Choice.id).Subperm ([] ++ cs.map Choice.id)
    rw [List.nil_append]
    unfold handleDeleteChoice
    rw [map_id_mapIdx_setOrder]
    exact ((List.filter_sublist cs).map Choice.id).subperm
  | drop di dp =>
    show (((handleDrop di dp cs).getD cs).map Choice.id).Subperm ([] ++ cs.map Choice.id)
    rw [List.nil_append]
    cases di with
    | none => exact List.Subperm.refl _
    | some i =>
      cases hd : handleDrop (some i) dp cs with
      | none =>
        simp only [hd, Option.getD_none]
        exact List.Subperm.refl _
      | some r =>
        simp only [hd, Option.getD_some]
        exact ((handleDrop_perm i dp cs r hd).map Choice.id).subperm
  | shuffle keys =>
    show ((handleShuffle keys cs).map Choice.id).Subperm ([] ++ cs.map Choice.id)
    rw [List.nil_append]
    exact ((handleShuffle_perm keys cs).map Choice.id).subperm
  | editText cid t =>
    show ((editChoiceText cid t cs).map Choice.id).Subperm ([] ++ cs.map Choice.id)
    rw [List.nil_append]
    unfold editChoiceText
    rw [List.map_map]
    have : cs.map (Choice.id ∘ fun c =>
        if c.id == cid then { c with text := t } else c) = cs.map Choice.id := by
      apply List.map_congr_left
      intro c _
      by_cases hc : c.id == cid <;> simp [Function.comp, hc]
    rw [this]

/- The question that a choice mutation hands back through
`handleQuestionUpdate` keeps its id, and its ids are a subpermutation
of the new ids plus its old ids. -/
theorem questionIds_update_subperm (q : Question) (op : ChoiceOp) :
    (questionIds { q with choices := applyChoiceOp op q.choices }).Subperm
      (op.newIds ++ questionIds q) := by
  unfold questionIds
  have hmid : (q.id :: (op.newIds ++ q.choices.map Choice.id)).Perm
      (op.newIds ++ q.id :: q.choices.map Choice.id) := List.perm_middle.symm
  exact (subperm_cons_both q.id (choice_ids_subperm op q.choices)).trans hmid.subperm

theorem map_question_id_sublist :
    ∀ qs : List Question, (qs.map Question.id).Sublist (qs.flatMap questionIds)
  | [] => List.Sublist.refl _
  | q :: t => by
    rw [List.map_cons, List.flatMap_cons]
    show (q.id :: t.map Question.id).Sublist
      ((q.id :: q.choices.map Choice.id) ++ t.flatMap questionIds)
    rw [List.cons_append]
    exact ((map_question_id_sublist t).trans
      (List.sublist_append_right _ _)).cons₂ q.id

/- Under the all-ids-distinct invariant, a question id determines the
question entry. -/
theorem nodup_questions_inj {qs : List Question}
    (hnd : (qs.flatMap questionIds).Nodup) {q₁ q₂ : Question}
    (h₁ : q₁ ∈ qs) (h₂ : q₂ ∈ qs) (h : q₁.id = q₂.id) : q₁ = q₂ :=
  List.inj_on_of_nodup_map ((map_question_id_sublist qs).nodup hnd) h₁ h₂ h

/- Replacing (by id) one question with a version whose ids are a
subpermutation of fresh-ids-plus-its-own keeps the id multiset within
fresh-ids-plus-the-old-multiset. -/
theorem allIds_update_subperm (q' : Question) (N : List String) :
    ∀ qs : List Question, (qs.flatMap questionIds).Nodup →
      (∀ q ∈ qs, q.id = q'.id → (questionIds q').Subperm (N ++ questionIds q)) →
      ((qs.map (fun q => if q.id == q'.id then q' else q)).flatMap questionIds).Subperm
        (N ++ qs.flatMap questionIds)
  | [], _, _ => by simp
  | q :: t, hnd, hup => by
    rw [List.map_cons, List.flatMap_cons, List.flatMap_cons]
    by_cases hq : (q.id == q'.id) = true
    · rw [if_pos hq]
      have hqid : q.id = q'.id := beq_iff_eq.mp hq
      have hdisj := List.nodup_append.mp (by
        rw [← List.flatMap_cons]
        exact hnd)
      have htail : ∀ x ∈ t, (x.id == q'.id) = false := by
        intro x hx
        by_contra hcontra
        have hxid : x.id = q'.id := beq_iff_eq.mp (by
          cases hxq : (x.id == q'.id) with
          | true => rfl
          | false => exact absurd hxq hcontra)
        have hmem1 : q.id ∈ questionIds q := List.mem_cons_self _ _
        have hmem2 : q.id ∈ t.flatMap questionIds := by
          rw [List.mem_flatMap]
          exact ⟨x, hx, by rw [hqid, ← hxid]; exact List.mem_cons_self _ _⟩
        exact hdisj.2.2 hmem1 hmem2
      rw [map_if_no_match htail]
      have h1 := subperm_append_both (hup q (List.mem_cons_self _ _) hqid)
        (List.Subperm.refl (t.flatMap questionIds))
      rwa [List.append_assoc] at h1
    · rw [if_neg hq]
      have hndt : (t.flatMap questionIds).Nodup :=
        (List.sublist_append_right (questionIds q) _).nodup (by
          rw [← List.flatMap_cons]
          exact hnd)
      have ih := allIds_update_subperm q' N t hndt
        (fun x hx hxid => hup x (List.mem_cons_of_mem q hx) hxid)
      exact (subperm_append_both (List.Subperm.refl (questionIds q)) ih).trans
        (perm_append_swap (questionIds q) N (t.flatMap questionIds)).subperm

/- ------------------------------------------------------------------ -/
/- Claim C7                                                            -/
/- ------------------------------------------------------------------ -/

/-- C7: question and choice ids are generated exactly once at creation
(`handleAddQuestion`, `handleAddChoice`) and no editor operation
changes or reuses an existing id: under the hypothesis that the
generated ids are fresh (and that a drag reorder delivers a
permutation), every operation keeps the ids of the quiz pairwise
distinct, and the resulting id multiset stays within the freshly
generated ids plus the previous ones. -/
theorem editor_ops_preserve_distinct_ids (quiz : Quiz) (op : EditorOp)
    (hnd : (allIds quiz).Nodup) (hfresh : opFresh op quiz) :
    (allIds (applyEditorOp op quiz)).Nodup ∧
    (allIds (applyEditorOp op quiz)).Subperm (opNewIds op ++ allIds quiz) := by
  have hsub : (allIds (applyEditorOp op quiz)).Subperm (opNewIds op ++ allIds quiz) := by
    cases op with
    | addQuestion fresh =>
      show (allIds (handleAddQuestion fresh quiz)).Subperm ([fresh] ++ allIds quiz)
      unfold allIds handleAddQuestion
      simp only [List.flatMap_append, List.flatMap_cons, List.flatMap_nil]
      show ((quiz.questions.flatMap questionIds) ++ ([fresh] ++ [])).Subperm _
      rw [List.append_nil]
      exact List.perm_append_comm.subperm
    | deleteQuestion qid =>
      show (allIds (handleDeleteQuestion qid quiz)).Subperm ([] ++ allIds quiz)
      rw [List.nil_append]
      exact (sublist_flatMap questionIds (List.filter_sublist quiz.questions)).subperm
    | reorderQuestions l =>
      show (allIds (handleReorderQuestions l quiz)).Subperm ([] ++ allIds quiz)
      rw [List.nil_append]
      have hp : l.Perm quiz.questions := hfresh
      exact (hp.flatMap_right questionIds).subperm
    | choiceOp qid cop =>
      show (allIds (match quiz.questions.find? (fun q => q.id == qid) with
        | none => quiz
        | some q => handleQuestionUpdate
            { q with choices := applyChoiceOp cop q.choices } quiz)).Subperm _
      cases hfind : quiz.questions.find? (fun q => q.id == qid) with
      | none =>
        exact (List.sublist_append_right (opNewIds (.choiceOp qid cop))
          (allIds quiz)).subperm
      | some q =>
        have hqmem : q ∈ quiz.questions := List.mem_of_find?_eq_some hfind
        unfold handleQuestionUpdate allIds
        exact allIds_update_subperm _ _ quiz.questions hnd (by
          intro x hx hxid
          have hxq : x = q := nodup_questions_inj hnd hx hqmem hxid
          rw [hxq]
          exact questionIds_update_subperm q cop)
  have hndN : (opNewIds op ++ allIds quiz).Nodup := by
    cases op with
    | addQuestion fresh =>
      exact List.nodup_cons.mpr ⟨hfresh, hnd⟩
    | deleteQuestion qid => exact hnd
    | reorderQuestions l => exact hnd
    | choiceOp qid cop =>
      cases cop with
      | add fresh => exact List.nodup_cons.mpr ⟨hfresh, hnd⟩
      | del cid => exact hnd
      | drop di dp => exact hnd
      | shuffle keys => exact hnd
      | editText cid t => exact hnd
  exact ⟨subperm_nodup hsub hndN, hsub⟩

/-- C7 witness: adding a fresh choice to the only question of a
concrete quiz with pairwise-distinct ids. -/
theorem editor_ops_preserve_distinct_ids_witness :
    (allIds ⟨"Q", "T", "en", "puzzle", "draft", some 30, some 10,
      [⟨"q1", "puzzle", "txt", none, [], [⟨"c1", "t", true, none, none, none, 0⟩]⟩]⟩).Nodup ∧
    opFresh (.choiceOp "q1" (.add "c2"))
      ⟨"Q", "T", "en", "puzzle", "draft", some 30, some 10,
        [⟨"q1", "puzzle", "txt", none, [], [⟨"c1", "t", true, none, none, none, 0⟩]⟩]⟩ ∧
    ((allIds (applyEditorOp (.choiceOp "q1" (.add "c2"))
        ⟨"Q", "T", "en", "puzzle", "draft", some 30, some 10,
          [⟨"q1", "puzzle", "txt", none, [], [⟨"c1", "t", true, none, none, none, 0⟩]⟩]⟩)).Nodup ∧
     (allIds (applyEditorOp (.choiceOp "q1" (.add "c2"))
        ⟨"Q", "T", "en", "puzzle", "draft", some 30, some 10,
          [⟨"q1", "puzzle", "txt", none, [], [⟨"c1", "t", true, none, none, none, 0⟩]⟩]⟩)).Subperm
       (opNewIds (.choiceOp "q1" (.add "c2")) ++
        allIds ⟨"Q", "T", "en", "puzzle", "draft", some 30, some 10,
          [⟨"q1", "puzzle", "txt", none, [], [⟨"c1", "t", true, none, none, none, 0⟩]⟩]⟩)) :=
  ⟨by decide, by show "c2" ∉ allIds _; decide,
   editor_ops_preserve_distinct_ids _ _ (by decide) (by show "c2" ∉ allIds _; decide)⟩

/- ------------------------------------------------------------------ -/
/- Helper lemmas: the save pipeline                                    -/
/- ------------------------------------------------------------------ -/

theorem handleSave_eq (userId accessToken : String) (env : Nat → FetchResult)
    (s0 : SaveState) (h1 : userId ≠ "") (h2 : accessToken ≠ "") :
    handleSave userId accessToken env s0 = savePipeline userId env s0 := by
  unfold handleSave
  rw [if_neg (by simp [h1, h2])]

theorem noFatal_nil (env : Nat → FetchResult) (k : Nat) : noFatal env k [] := by
  intro i h
  simp at h

theorem noFatal_cons {env : Nat → FetchResult} {k : Nat} {r : Request}
    {tl : List Request} (h0 : fatalReq r (env k) = false)
    (h1 : noFatal env (k + 1) tl) : noFatal env k (r :: tl) := by
  intro i hi
  cases i with
  | zero => simpa using h0
  | succ n =>
    have harg : k + (n + 1) = k + 1 + n := by omega
    have := h1 n (by simpa using hi)
    rw [harg]
    exact this

theorem noFatal_head {env : Nat → FetchResult} {k : Nat} {r : Request}
    {tl : List Request} (h : noFatal env k (r :: tl)) :
    fatalReq r (env k) = false := by
  have := h 0 (by simp)
  simpa using this

theorem noFatal_tail {env : Nat → FetchResult} {k : Nat} {r : Request}
    {tl : List Request} (h : noFatal env k (r :: tl)) :
    noFatal env (k + 1) tl := by
  intro i hi
  have harg : k + 1 + i = k + (i + 1) := by omega
  have := h (i + 1) (by simpa using hi)
  rw [harg]
  exact this

theorem noFatal_append {env : Nat → FetchResult} :
    ∀ (A B : List Request) (k : Nat), noFatal env k A →
      noFatal env (k + A.length) B → noFatal env k (A ++ B)
  | [], B, k, _, hB => by simpa using hB
  | a :: t, B, k, hA, hB => by
    rw [List.cons_append]
    refine noFatal_cons (noFatal_head hA) ?_
    refine noFatal_append t B (k + 1) (noFatal_tail hA) ?_
    have harg : k + 1 + t.length = k + (a :: t).length := by
      simp only [List.length_cons]
      omega
    rw [harg]
    exact hB

/- Full behaviour of the image loop: it appends only image POSTs to
the trace; on success they are exactly one POST per url, in order,
none of which got a fatal (rejected) result; on failure the appended
requests end with the request whose result was fatal. -/
theorem postImages_spec (env : Nat → FetchResult) (qid : String) :
    ∀ (urls : List String) (j total : Nat) (ls : LoopState),
      ∃ ext,
        (postImages env qid urls j total ls).1.trace = ls.trace ++ ext ∧
        (∀ r ∈ ext, r.isDelete = false) ∧
        ((postImages env qid urls j total ls).2 = true →
          ext = urls.map (fun u => Request.postImage ⟨qid, u⟩) ∧
          noFatal env ls.trace.length ext) ∧
        ((postImages env qid urls j total ls).2 = false →
          ∃ pre r, ext = pre ++ [r] ∧
            fatalReq r (env (ls.trace.length + pre.length)) = true)
  | [], j, total, ls => by
    refine ⟨[], by simp [postImages], by simp, ?_, ?_⟩
    · intro _
      exact ⟨rfl, noFatal_nil env ls.trace.length⟩
    · intro h
      simp [postImages] at h
  | url :: rest, j, total, ls => by
    have hred : postImages env qid (url :: rest) j total ls =
        match env ls.trace.length with
        | .netErr => (⟨ls.trace ++ [.postImage ⟨qid, url⟩],
            some ⟨.images, j + 1, total⟩⟩, false)
        | _ => postImages env qid rest (j + 1) total
            ⟨ls.trace ++ [.postImage ⟨qid, url⟩], some ⟨.images, j + 1, total⟩⟩ := by
      show (match (issue env { ls with saveProgress := some ⟨.images, j + 1, total⟩ }
          (.postImage ⟨qid, url⟩)).2 with
        | .netErr => _
        | _ => _) = _
      unfold issue
      rfl
    cases hE : env ls.trace.length with
    | netErr =>
      rw [hred, hE]
      refine ⟨[.postImage ⟨qid, url⟩], by simp, by simp [Request.isDelete], ?_, ?_⟩
      · intro h
        simp at h
      · intro _
        exact ⟨[], .postImage ⟨qid, url⟩, rfl, by simp [fatalReq, hE]⟩
    | ok id =>
      rw [hred, hE]
      obtain ⟨ext', htr, hdel, hsucc, hfail⟩ := postImages_spec env qid rest
        (j + 1) total ⟨ls.trace ++ [.postImage ⟨qid, url⟩], some ⟨.images, j + 1, total⟩⟩
      refine ⟨.postImage ⟨qid, url⟩ :: ext', by simpa using htr, ?_, ?_, ?_⟩
      · intro r hr
        rcases List.mem_cons.mp hr with hr | hr
        · simp [hr, Request.isDelete]
        · exact hdel r hr
      · intro h
        obtain ⟨hx, hnf⟩ := hsucc h
        refine ⟨by simp [hx], noFatal_cons (by simp [fatalReq, hE, FetchResult.isOk]) ?_⟩
        simpa using hnf
      · intro h
        obtain ⟨pre', r', hx, hfat⟩ := hfail h
        refine ⟨.postImage ⟨qid, url⟩ :: pre', r', by simp [hx], ?_⟩
        have harg : ls.trace.length + (Request.postImage ⟨qid, url⟩ :: pre').length =
            (ls.trace ++ [Request.postImage ⟨qid, url⟩]).length + pre'.length := by
          simp
          omega
        rw [harg]
        exact hfat
    | notOk =>
      rw [hred, hE]
      obtain ⟨ext', htr, hdel, hsucc, hfail⟩ := postImages_spec env qid rest
        (j + 1) total ⟨ls.trace ++ [.postImage ⟨qid, url⟩], some ⟨.images, j + 1, total⟩⟩
      refine ⟨.postImage ⟨qid, url⟩ :: ext', by simpa using htr, ?_, ?_, ?_⟩
      · intro r hr
        rcases List.mem_cons.mp hr with hr | hr
        · simp [hr, Request.isDelete]
        · exact hdel r hr
      · intro h
        obtain ⟨hx, hnf⟩ := hsucc h
        refine ⟨by simp [hx], noFatal_cons (by simp [fatalReq, hE]) ?_⟩
        simpa using hnf
      · intro h
        obtain ⟨pre', r', hx, hfat⟩ := hfail h
        refine ⟨.postImage ⟨qid, url⟩ :: pre', r', by simp [hx], ?_⟩
        have harg : ls.trace.length + (Request.postImage ⟨qid, url⟩ :: pre').length =
            (ls.trace ++ [Request.postImage ⟨qid, url⟩]).length + pre'.length := by
          simp
          omega
        rw [harg]
        exact hfat

/- Full behaviour of the choice loop, mirror image of the image loop. -/
theorem postChoices_spec (env : Nat → FetchResult) (qid : String) :
    ∀ (cs : List Choice) (k total : Nat) (ls : LoopState),
      ∃ ext,
        (postChoices env qid cs k total ls).1.trace = ls.trace ++ ext ∧
        (∀ r ∈ ext, r.isDelete = false) ∧
        ((postChoices env qid cs k total ls).2 = true →
          ext = cs.map (fun c => Request.postChoice (choiceBody qid c)) ∧
          noFatal env ls.trace.length ext) ∧
        ((postChoices env qid cs k total ls).2 = false →
          ∃ pre r, ext = pre ++ [r] ∧
            fatalReq r (env (ls.trace.length + pre.length)) = true)
  | [], k, total, ls => by
    refine ⟨[], by simp [postChoices], by simp, ?_, ?_⟩
    · intro _
      exact ⟨rfl, noFatal_nil env ls.trace.length⟩
    · intro h
      simp [postChoices] at h
  | c :: rest, k, total, ls => by
    have hred : postChoices env qid (c :: rest) k total ls =
        match env ls.trace.length with
        | .netErr => (⟨ls.trace ++ [.postChoice (choiceBody qid c)],
            some ⟨.choices, k + 1, total⟩⟩, false)
        | _ => postChoices env qid rest (k + 1) total
            ⟨ls.trace ++ [.postChoice (choiceBody qid c)], some ⟨.choices, k + 1, total⟩⟩ := by
      show (match (issue env { ls with saveProgress := some ⟨.choices, k + 1, total⟩ }
          (.postChoice (choiceBody qid c))).2 with
        | .netErr => _
        | _ => _) = _
      unfold issue
      rfl
    cases hE : env ls.trace.length with
    | netErr =>
      rw [hred, hE]
      refine ⟨[.postChoice (choiceBody qid c)], by simp, by simp [Request.isDelete], ?_, ?_⟩
      · intro h
        simp at h
      · intro _
        exact ⟨[], .postChoice (choiceBody qid c), rfl, by simp [fatalReq, hE]⟩
    | ok id =>
      rw [hred, hE]
      obtain ⟨ext', htr, hdel, hsucc, hfail⟩ := postChoices_spec env qid rest
        (k + 1) total ⟨ls.trace ++ [.postChoice (choiceBody qid c)],
          some ⟨.choices, k + 1, total⟩⟩
      refine ⟨.postChoice (choiceBody qid c) :: ext', by simpa using htr, ?_, ?_, ?_⟩
      · intro r hr
        rcases List.mem_cons.mp hr with hr | hr
        · simp [hr, Request.isDelete]
        · exact hdel r hr
      · intro h
        obtain ⟨hx, hnf⟩ := hsucc h
        refine ⟨by simp [hx], noFatal_cons (by simp [fatalReq, hE, FetchResult.isOk]) ?_⟩
        simpa using hnf
      · intro h
        obtain ⟨pre', r', hx, hfat⟩ := hfail h
        refine ⟨.postChoice (choiceBody qid c) :: pre', r', by simp [hx], ?_⟩
        have harg : ls.trace.length + (Request.postChoice (choiceBody qid c) :: pre').length =
            (ls.trace ++ [Request.postChoice (choiceBody qid c)]).length + pre'.length := by
          simp
          omega
        rw [harg]
        exact hfat
    | notOk =>
      rw [hred, hE]
      obtain ⟨ext', htr, hdel, hsucc, hfail⟩ := postChoices_spec env qid rest
        (k + 1) total ⟨ls.trace ++ [.postChoice (choiceBody qid c)],
          some ⟨.choices, k + 1, total⟩⟩
      refine ⟨.postChoice (choiceBody qid c) :: ext', by simpa using htr, ?_, ?_, ?_⟩
      · intro r hr
        rcases List.mem_cons.mp hr with hr | hr
        · simp [hr, Request.isDelete]
        · exact hdel r hr
      · intro h
        obtain ⟨hx, hnf⟩ := hsucc h
        refine ⟨by simp [hx], noFatal_cons (by simp [fatalReq, hE]) ?_⟩
        simpa using hnf
      · intro h
        obtain ⟨pre', r', hx, hfat⟩ := hfail h
        refine ⟨.postChoice (choiceBody qid c) :: pre', r', by simp [hx], ?_⟩
        have harg : ls.trace.length + (Request.postChoice (choiceBody qid c) :: pre').length =
            (ls.trace ++ [Request.postChoice (choiceBody qid c)]).length + pre'.length := by
          simp
          omega
        rw [harg]
        exact hfat

/- Full behaviour of the question loop: only POSTs are appended; on
success the appended requests have exactly the shapes spec section 4
predicts (question, then its images in order, then its choices in
order, for each question in order) and none got a fatal result; on
failure they end with the request whose result was fatal. -/
theorem saveQuestions_spec (env : Nat → FetchResult) (quizId : String) :
    ∀ (qs : List Question) (i total : Nat) (ls : LoopState),
      ∃ ext,
        (saveQuestions env quizId qs i total ls).1.trace = ls.trace ++ ext ∧
        (∀ r ∈ ext, r.isDelete = false) ∧
        ((saveQuestions env quizId qs i total ls).2 = true →
          ext.map Request.shape = qs.flatMap questionShapes ∧
          noFatal env ls.trace.length ext) ∧
        ((saveQuestions env quizId qs i total ls).2 = false →
          ∃ pre r, ext = pre ++ [r] ∧
            fatalReq r (env (ls.trace.length + pre.length)) = true)
  | [], i, total, ls => by
    refine ⟨[], by simp [saveQuestions], by simp, ?_, ?_⟩
    · intro _
      exact ⟨rfl, noFatal_nil env ls.trace.length⟩
    · intro h
      simp [saveQuestions] at h
  | q :: rest, i, total, ls => by
    have hred : saveQuestions env quizId (q :: rest) i total ls =
        match env ls.trace.length with
        | .ok questionId =>
          (match postImages env questionId q.imageUrls 0 q.imageUrls.length
              (if q.imageUrls.length > 0
               then ⟨ls.trace ++ [.postQuestion (questionBody quizId q)],
                     some ⟨.images, 0, q.imageUrls.length⟩⟩
               else ⟨ls.trace ++ [.postQuestion (questionBody quizId q)],
                     some ⟨.questions, i + 1, total⟩⟩) with
           | (ls4, false) => (ls4, false)
           | (ls4, true) =>
             match postChoices env questionId q.choices 0 q.choices.length
                 { ls4 with saveProgress := some ⟨.choices, 0, q.choices.length⟩ } with
             | (ls6, false) => (ls6, false)
             | (ls6, true) => saveQuestions env quizId rest (i + 1) total ls6)
        | _ => (⟨ls.trace ++ [.postQuestion (questionBody quizId q)],
                some ⟨.questions, i + 1, total⟩⟩, false) := by
      rfl
    cases hE : env ls.trace.length with
    | notOk =>
      have hval : saveQuestions env quizId (q :: rest) i total ls =
          (⟨ls.trace ++ [.postQuestion (questionBody quizId q)],
            some ⟨.questions, i + 1, total⟩⟩, false) := by
        rw [hred, hE]
      refine ⟨[.postQuestion (questionBody quizId q)], ?_, by simp [Request.isDelete], ?_, ?_⟩
      · rw [hval]
      · intro h
        rw [hval] at h
        simp at h
      · intro _
        exact ⟨[], .postQuestion (questionBody quizId q), rfl,
          by simp [fatalReq, hE, FetchResult.isOk]⟩
    | netErr =>
      have hval : saveQuestions env quizId (q :: rest) i total ls =
          (⟨ls.trace ++ [.postQuestion (questionBody quizId q)],
            some ⟨.questions, i + 1, total⟩⟩, false) := by
        rw [hred, hE]
      refine ⟨[.postQuestion (questionBody quizId q)], ?_, by simp [Request.isDelete], ?_, ?_⟩
      · rw [hval]
      · intro h
        rw [hval] at h
        simp at h
      · intro _
        exact ⟨[], .postQuestion (questionBody quizId q), rfl,
          by simp [fatalReq, hE, FetchResult.isOk]⟩
    | ok questionId =>
      set qreq : Request := .postQuestion (questionBody quizId q) with hqreq
      set ls3 : LoopState :=
        if q.imageUrls.length > 0
        then ⟨ls.trace ++ [qreq], some ⟨.images, 0, q.imageUrls.length⟩⟩
        else ⟨ls.trace ++ [qreq], some ⟨.questions, i + 1, total⟩⟩ with hls3
      have h3tr : ls3.trace = ls.trace ++ [qreq] := by
        rw [hls3]
        split <;> rfl
      have h3len : ls3.trace.length = ls.trace.length + 1 := by
        rw [h3tr]
        simp
      have hok : saveQuestions env quizId (q :: rest) i total ls =
          (match postImages env questionId q.imageUrls 0 q.imageUrls.length ls3 with
           | (ls4, false) => (ls4, false)
           | (ls4, true) =>
             match postChoices env questionId q.choices 0 q.choices.length
                 { ls4 with saveProgress := some ⟨.choices, 0, q.choices.length⟩ } with
             | (ls6, false) => (ls6, false)
             | (ls6, true) => saveQuestions env quizId rest (i + 1) total ls6) := by
        rw [hred, hE]
      obtain ⟨extI, htrI, hdelI, hsuccI, hfailI⟩ :=
        postImages_spec env questionId q.imageUrls 0 q.imageUrls.length ls3
      cases hpi : postImages env questionId q.imageUrls 0 q.imageUrls.length ls3 with
      | mk ls4 bI =>
        rw [hpi] at htrI hsuccI hfailI
        simp only at htrI hsuccI hfailI
        cases bI with
        | false =>
          have hval : saveQuestions env quizId (q :: rest) i total ls = (ls4, false) := by
            rw [hok, hpi]
          obtain ⟨preI, rI, hxI, hfatI⟩ := hfailI rfl
          refine ⟨qreq :: extI, ?_, ?_, ?_, ?_⟩
          · rw [hval]
            show ls4.trace = _
            rw [htrI, h3tr]
            simp
          · intro r hr
            rcases List.mem_cons.mp hr with hr | hr
            · simp [hr, hqreq, Request.isDelete]
            · exact hdelI r hr
          · intro h
            rw [hval] at h
            simp at h
          · intro _
            refine ⟨qreq :: preI, rI, by simp [hxI], ?_⟩
            have harg : ls.trace.length + (qreq :: preI).length =
                ls3.trace.length + preI.length := by
              simp only [List.length_cons, h3len]
              omega
            rw [harg]
            exact hfatI
        | true =>
          obtain ⟨hxI, hnfI⟩ := hsuccI rfl
          obtain ⟨extC, htrC, hdelC, hsuccC, hfailC⟩ :=
            postChoices_spec env questionId q.choices 0 q.choices.length
              { ls4 with saveProgress := some ⟨.choices, 0, q.choices.length⟩ }
          cases hpc : postChoices env questionId q.choices 0 q.choices.length
              { ls4 with saveProgress := some ⟨.choices, 0, q.choices.length⟩ } with
          | mk ls6 bC =>
            rw [hpc] at htrC hsuccC hfailC
            simp only at htrC hsuccC hfailC
            have h4tr : ls4.trace = (ls.trace ++ [qreq]) ++ extI := by
              rw [← h3tr]
              exact htrI
            have h4len : ls4.trace.length = ls.trace.length + 1 + extI.length := by
              rw [h4tr]
              simp only [List.length_append, List.length_cons, List.length_nil]
            have h6tr : ls6.trace = ((ls.trace ++ [qreq]) ++ extI) ++ extC := by
              rw [← h4tr]
              exact htrC
            have h6len : ls6.trace.length =
                ls.trace.length + 1 + extI.length + extC.length := by
              rw [h6tr]
              simp only [List.length_append, List.length_cons, List.length_nil]
            cases bC with
            | false =>
              have hval : saveQuestions env quizId (q :: rest) i total ls = (ls6, false) := by
                rw [hok, hpi]
                show (match postChoices env questionId q.choices 0 q.choices.length
                    { ls4 with saveProgress := some ⟨.choices, 0, q.choices.length⟩ } with
                  | (ls6, false) => (ls6, false)
                  | (ls6, true) => saveQuestions env quizId rest (i + 1) total ls6) = _
                rw [hpc]
              obtain ⟨preC, rC, hxC, hfatC⟩ := hfailC rfl
              refine ⟨qreq :: (extI ++ extC), ?_, ?_, ?_, ?_⟩
              · rw [hval]
                show ls6.trace = _
                rw [h6tr]
                simp
              · intro r hr
                rcases List.mem_cons.mp hr with hr | hr
                · simp [hr, hqreq, Request.isDelete]
                · rcases List.mem_append.mp hr with hr | hr
                  · exact hdelI r hr
                  · exact hdelC r hr
              · intro h
                rw [hval] at h
                simp at h
              · intro _
                refine ⟨qreq :: (extI ++ preC), rC, by simp [hxC], ?_⟩
                have harg : ls.trace.length + (qreq :: (extI ++ preC)).length =
                    ls4.trace.length + preC.length := by
                  simp only [List.length_cons, List.length_append, h4len]
                  omega
                rw [harg]
                exact hfatC
            | true =>
              obtain ⟨hxC, hnfC⟩ := hsuccC rfl
              obtain ⟨extR, htrR, hdelR, hsuccR, hfailR⟩ :=
                saveQuestions_spec env quizId rest (i + 1) total ls6
              have hval : saveQuestions env quizId (q :: rest) i total ls =
                  saveQuestions env quizId rest (i + 1) total ls6 := by
                rw [hok, hpi]
                show (match postChoices env questionId q.choices 0 q.choices.length
                    { ls4 with saveProgress := some ⟨.choices, 0, q.choices.length⟩ } with
                  | (ls6, false) => (ls6, false)
                  | (ls6, true) => saveQuestions env quizId rest (i + 1) total ls6) = _
                rw [hpc]
              refine ⟨qreq :: (extI ++ (extC ++ extR)), ?_, ?_, ?_, ?_⟩
              · rw [hval, htrR, h6tr]
                simp
              · intro r hr
                rcases List.mem_cons.mp hr with hr | hr
                · simp [hr, hqreq, Request.isDelete]
                · rcases List.mem_append.mp hr with hr | hr
                  · exact hdelI r hr
                  · rcases List.mem_append.mp hr with hr | hr
                    · exact hdelC r hr
                    · exact hdelR r hr
              · intro h
                rw [hval] at h
                obtain ⟨hshR, hnfR⟩ := hsuccR h
                constructor
                · rw [List.flatMap_cons]
                  simp only [hxI, hxC, List.map_cons, List.map_append, List.map_map, hshR]
                  have hA : List.map (Request.shape ∘ fun u =>
                      Request.postImage ⟨questionId, u⟩) q.imageUrls =
                      q.imageUrls.map ReqShape.image :=
                    List.map_congr_left (fun u _ => rfl)
                  have hB : List.map (Request.shape ∘ fun c =>
                      Request.postChoice (choiceBody questionId c)) q.choices =
                      q.choices.map (fun c => ReqShape.choice c.text c.order) :=
                    List.map_congr_left (fun c _ => rfl)
                  rw [hA, hB]
                  show ReqShape.question q.text :: _ = _
                  unfold questionShapes
                  simp [List.append_assoc]
                · refine noFatal_cons (by simp [hqreq, fatalReq, hE, FetchResult.isOk]) ?_
                  refine noFatal_append extI (extC ++ extR) (ls.trace.length + 1) ?_ ?_
                  · rw [← h3len]
                    exact hnfI
                  · refine noFatal_append extC extR (ls.trace.length + 1 + extI.length) ?_ ?_
                    · rw [← h4len]
                      exact hnfC
                    · have harg : ls.trace.length + 1 + extI.length + extC.length =
                          ls6.trace.length := by
                        rw [h6len]
                      rw [harg]
                      exact hnfR
              · intro h
                rw [hval] at h
                obtain ⟨preR, rR, hxR, hfatR⟩ := hfailR h
                refine ⟨qreq :: (extI ++ (extC ++ preR)), rR, by simp [hxR], ?_⟩
                have harg : ls.trace.length + (qreq :: (extI ++ (extC ++ preR))).length =
                    ls6.trace.length + preR.length := by
                  simp only [List.length_cons, List.length_append, h6len]
                  omega
                rw [harg]
                exact hfatR

/- Reductions of `savePipeline` by the presence of a previously-saved
quiz id. -/
theorem savePipeline_eq_some (u : String) (env : Nat → FetchResult)
    (s0 : SaveState) (qid : String) (hcur : s0.currentQuizId = some qid) :
    savePipeline u env s0 =
      match env 1 with
      | .ok quizId =>
        (match saveQuestions env quizId s0.quiz.questions 0 s0.quiz.questions.length
            ⟨[.deleteQuiz qid, .postQuiz (quizBody u s0.quiz)], some ⟨.quiz, 1, 1⟩⟩ with
         | (ls4, true) =>
           ⟨{ quiz := { s0.quiz with id := quizId, status := "draft" },
              currentQuizId := some quizId, isSaving := false,
              saveProgress := none, toasts := s0.toasts ++ [.success] },
            ls4.trace, .saved { s0.quiz with id := quizId, status := "draft" }⟩
         | (ls4, false) =>
           ⟨{ quiz := s0.quiz, currentQuizId := some quizId, isSaving := false,
              saveProgress := none, toasts := s0.toasts ++ [.error] },
            ls4.trace, .threw⟩)
      | _ =>
        ⟨{ quiz := s0.quiz, currentQuizId := some qid, isSaving := false,
           saveProgress := none, toasts := s0.toasts ++ [.error] },
         [.deleteQuiz qid, .postQuiz (quizBody u s0.quiz)], .threw⟩ := by
  unfold savePipeline issue
  rw [hcur]
  rfl

theorem savePipeline_eq_none (u : String) (env : Nat → FetchResult)
    (s0 : SaveState) (hcur : s0.currentQuizId = none) :
    savePipeline u env s0 =
      match env 0 with
      | .ok quizId =>
        (match saveQuestions env quizId s0.quiz.questions 0 s0.quiz.questions.length
            ⟨[.postQuiz (quizBody u s0.quiz)], some ⟨.quiz, 1, 1⟩⟩ with
         | (ls4, true) =>
           ⟨{ quiz := { s0.quiz with id := quizId, status := "draft" },
              currentQuizId := some quizId, isSaving := false,
              saveProgress := none, toasts := s0.toasts ++ [.success] },
            ls4.trace, .saved { s0.quiz with id := quizId, status := "draft" }⟩
         | (ls4, false) =>
           ⟨{ quiz := s0.quiz, currentQuizId := some quizId, isSaving := false,
              saveProgress := none, toasts := s0.toasts ++ [.error] },
            ls4.trace, .threw⟩)
      | _ =>
        ⟨{ quiz := s0.quiz, currentQuizId := none, isSaving := false,
           saveProgress := none, toasts := s0.toasts ++ [.error] },
         [.postQuiz (quizBody u s0.quiz)], .threw⟩ := by
  unfold savePipeline issue
  rw [hcur]
  rfl

/- The loops read the environment only at positions at or beyond the
current trace length, so environments that agree there give the same
run. -/
theorem postImages_env_agree (env₁ env₂ : Nat → FetchResult) (qid : String) :
    ∀ (urls : List String) (j total : Nat) (ls : LoopState),
      (∀ n, ls.trace.length ≤ n → env₁ n = env₂ n) →
      postImages env₁ qid urls j total ls = postImages env₂ qid urls j total ls
  | [], _, _, _, _ => rfl
  | url :: rest, j, total, ls, hagree => by
    have hE : env₁ ls.trace.length = env₂ ls.trace.length :=
      hagree _ (Nat.le_refl _)
    have hred₁ : postImages env₁ qid (url :: rest) j total ls =
        match env₁ ls.trace.length with
        | .netErr => (⟨ls.trace ++ [.postImage ⟨qid, url⟩],
            some ⟨.images, j + 1, total⟩⟩, false)
        | _ => postImages env₁ qid rest (j + 1) total
            ⟨ls.trace ++ [.postImage ⟨qid, url⟩], some ⟨.images, j + 1, total⟩⟩ := rfl
    have hred₂ : postImages env₂ qid (url :: rest) j total ls =
        match env₂ ls.trace.length with
        | .netErr => (⟨ls.trace ++ [.postImage ⟨qid, url⟩],
            some ⟨.images, j + 1, total⟩⟩, false)
        | _ => postImages env₂ qid rest (j + 1) total
            ⟨ls.trace ++ [.postImage ⟨qid, url⟩], some ⟨.images, j + 1, total⟩⟩ := rfl
    rw [hred₁, hred₂, ← hE]
    have hagree2 : ∀ n, ((⟨ls.trace ++ [Request.postImage ⟨qid, url⟩],
        some ⟨.images, j + 1, total⟩⟩ : LoopState)).trace.length ≤ n →
        env₁ n = env₂ n := by
      intro n hn
      apply hagree
      simp only [List.length_append, List.length_cons, List.length_nil] at hn
      omega
    cases env₁ ls.trace.length with
    | netErr => rfl
    | ok id => exact postImages_env_agree env₁ env₂ qid rest (j + 1) total _ hagree2
    | notOk => exact postImages_env_agree env₁ env₂ qid rest (j + 1) total _ hagree2

theorem postChoices_env_agree (env₁ env₂ : Nat → FetchResult) (qid : String) :
    ∀ (cs : List Choice) (k total : Nat) (ls : LoopState),
      (∀ n, ls.trace.length ≤ n → env₁ n = env₂ n) →
      postChoices env₁ qid cs k total ls = postChoices env₂ qid cs k total ls
  | [], _, _, _, _ => rfl
  | c :: rest, k, total, ls, hagree => by
    have hE : env₁ ls.trace.length = env₂ ls.trace.length :=
      hagree _ (Nat.le_refl _)
    have hred₁ : postChoices env₁ qid (c :: rest) k total ls =
        match env₁ ls.trace.length with
        | .netErr => (⟨ls.trace ++ [.postChoice (choiceBody qid c)],
            some ⟨.choices, k + 1, total⟩⟩, false)
        | _ => postChoices env₁ qid rest (k + 1) total
            ⟨ls.trace ++ [.postChoice (choiceBody qid c)],
             some ⟨.choices, k + 1, total⟩⟩ := rfl
    have hred₂ : postChoices env₂ qid (c :: rest) k total ls =
        match env₂ ls.trace.length with
        | .netErr => (⟨ls.trace ++ [.postChoice (choiceBody qid c)],
            some ⟨.choices, k + 1, total⟩⟩, false)
        | _ => postChoices env₂ qid rest (k + 1) total
            ⟨ls.trace ++ [.postChoice (choiceBody qid c)],
             some ⟨.choices, k + 1, total⟩⟩ := rfl
    rw [hred₁, hred₂, ← hE]
    have hagree2 : ∀ n, ((⟨ls.trace ++ [Request.postChoice (choiceBody qid c)],
        some ⟨.choices, k + 1, total⟩⟩ : LoopState)).trace.length ≤ n →
        env₁ n = env₂ n := by
      intro n hn
      apply hagree
      simp only [List.length_append, List.length_cons, List.length_nil] at hn
      omega
    cases env₁ ls.trace.length with
    | netErr => rfl
    | ok id => exact postChoices_env_agree env₁ env₂ qid rest (k + 1) total _ hagree2
    | notOk => exact postChoices_env_agree env₁ env₂ qid rest (k + 1) total _ hagree2

theorem saveQuestions_env_agree (env₁ env₂ : Nat → FetchResult) (quizId : String) :
    ∀ (qs : List Question) (i total : Nat) (ls : LoopState),
      (∀ n, ls.trace.length ≤ n → env₁ n = env₂ n) →
      saveQuestions env₁ quizId qs i total ls = saveQuestions env₂ quizId qs i total ls
  | [], _, _, _, _ => rfl
  | q :: rest, i, total, ls, hagree => by
    have hE : env₁ ls.trace.length = env₂ ls.trace.length :=
      hagree _ (Nat.le_refl _)
    have hred₁ : saveQuestions env₁ quizId (q :: rest) i total ls =
        match env₁ ls.trace.length with
        | .ok questionId =>
          (match postImages env₁ questionId q.imageUrls 0 q.imageUrls.length
              (if q.imageUrls.length > 0
               then ⟨ls.trace ++ [.postQuestion (questionBody quizId q)],
                     some ⟨.images, 0, q.imageUrls.length⟩⟩
               else ⟨ls.trace ++ [.postQuestion (questionBody quizId q)],
                     some ⟨.questions, i + 1, total⟩⟩) with
           | (ls4, false) => (ls4, false)
           | (ls4, true) =>
             match postChoices env₁ questionId q.choices 0 q.choices.length
                 { ls4 with saveProgress := some ⟨.choices, 0, q.choices.length⟩ } with
             | (ls6, false) => (ls6, false)
             | (ls6, true) => saveQuestions env₁ quizId rest (i + 1) total ls6)
        | _ => (⟨ls.trace ++ [.postQuestion (questionBody quizId q)],
                some ⟨.questions, i + 1, total⟩⟩, false) := rfl
    have hred₂ : saveQuestions env₂ quizId (q :: rest) i total ls =
        match env₂ ls.trace.length with
        | .ok questionId =>
          (match postImages env₂ questionId q.imageUrls 0 q.imageUrls.length
              (if q.imageUrls.length > 0
               then ⟨ls.trace ++ [.postQuestion (questionBody quizId q)],
                     some ⟨.images, 0, q.imageUrls.length⟩⟩
               else ⟨ls.trace ++ [.postQuestion (questionBody quizId q)],
                     some ⟨.questions, i + 1, total⟩⟩) with
           | (ls4, false) => (ls4, false)
           | (ls4, true) =>
             match postChoices env₂ questionId q.choices 0 q.choices.length
                 { ls4 with saveProgress := some ⟨.choices, 0, q.choices.length⟩ } with
             | (ls6, false) => (ls6, false)
             | (ls6, true) => saveQuestions env₂ quizId rest (i + 1) total ls6)
        | _ => (⟨ls.trace ++ [.postQuestion (questionBody quizId q)],
                some ⟨.questions, i + 1, total⟩⟩, false) := rfl
    rw [hred₁, hred₂, ← hE]
    cases env₁ ls.trace.length with
    | notOk => rfl
    | netErr => rfl
    | ok questionId =>
      set ls3 : LoopState :=
        if q.imageUrls.length > 0
        then ⟨ls.trace ++ [.postQuestion (questionBody quizId q)],
              some ⟨.images, 0, q.imageUrls.length⟩⟩
        else ⟨ls.trace ++ [.postQuestion (questionBody quizId q)],
              some ⟨.questions, i + 1, total⟩⟩ with hls3
      have h3tr : ls3.trace = ls.trace ++ [.postQuestion (questionBody quizId q)] := by
        rw [hls3]
        split <;> rfl
      have hagree3 : ∀ n, ls3.trace.length ≤ n → env₁ n = env₂ n := by
        intro n hn
        apply hagree
        rw [h3tr] at hn
        simp only [List.length_append, List.length_cons, List.length_nil] at hn
        omega
      have heq : (match postImages env₁ questionId q.imageUrls 0 q.imageUrls.length ls3 with
           | (ls4, false) => (ls4, false)
           | (ls4, true) =>
             match postChoices env₁ questionId q.choices 0 q.choices.length
                 { ls4 with saveProgress := some ⟨.choices, 0, q.choices.length⟩ } with
             | (ls6, false) => (ls6, false)
             | (ls6, true) => saveQuestions env₁ quizId rest (i + 1) total ls6) =
          (match postImages env₂ questionId q.imageUrls 0 q.imageUrls.length ls3 with
           | (ls4, false) => (ls4, false)
           | (ls4, true) =>
             match postChoices env₂ questionId q.choices 0 q.choices.length
                 { ls4 with saveProgress := some ⟨.choices, 0, q.choices.length⟩ } with
             | (ls6, false) => (ls6, false)
             | (ls6, true) => saveQuestions env₂ quizId rest (i + 1) total ls6) := by
        rw [← postImages_env_agree env₁ env₂ questionId q.imageUrls 0
          q.imageUrls.length ls3 hagree3]
        obtain ⟨extI, htrI, hdelI, hsuI, hfaI⟩ :=
          postImages_spec env₁ questionId q.imageUrls 0 q.imageUrls.length ls3
        cases hpi : postImages env₁ questionId q.imageUrls 0 q.imageUrls.length ls3 with
        | mk ls4 bI =>
          rw [hpi] at htrI
          simp only at htrI
          cases bI with
          | false => rfl
          | true =>
            have h4len : ls4.trace.length = ls3.trace.length + extI.length := by
              rw [htrI]
              simp
            have hagree4 : ∀ n, ls4.trace.length ≤ n → env₁ n = env₂ n := by
              intro n hn
              exact hagree3 n (by omega)
            have heq2 : (match postChoices env₁ questionId q.choices 0 q.choices.length
                  { ls4 with saveProgress := some ⟨.choices, 0, q.choices.length⟩ } with
                | (ls6, false) => (ls6, false)
                | (ls6, true) => saveQuestions env₁ quizId rest (i + 1) total ls6) =
                (match postChoices env₂ questionId q.choices 0 q.choices.length
                  { ls4 with saveProgress := some ⟨.choices, 0, q.choices.length⟩ } with
                | (ls6, false) => (ls6, false)
                | (ls6, true) => saveQuestions env₂ quizId rest (i + 1) total ls6) := by
              rw [← postChoices_env_agree env₁ env₂ questionId q.choices 0
                q.choices.length
                { ls4 with saveProgress := some ⟨.choices, 0, q.choices.length⟩ }
                hagree4]
              obtain ⟨extC, htrC, hdelC, hsuC, hfaC⟩ :=
                postChoices_spec env₁ questionId q.choices 0 q.choices.length
                  { ls4 with saveProgress := some ⟨.choices, 0, q.choices.length⟩ }
              cases hpc : postChoices env₁ questionId q.choices 0 q.choices.length
                  { ls4 with saveProgress := some ⟨.choices, 0, q.choices.length⟩ } with
              | mk ls6 bC =>
                rw [hpc] at htrC
                simp only at htrC
                cases bC with
                | false => rfl
                | true =>
                  have h6len : ls6.trace.length = ls4.trace.length + extC.length := by
                    rw [htrC]
                    simp
                  have hagree6 : ∀ n, ls6.trace.length ≤ n → env₁ n = env₂ n := by
                    intro n hn
                    exact hagree4 n (by omega)
                  exact saveQuestions_env_agree env₁ env₂ quizId rest (i + 1)
                    total ls6 hagree6
            exact heq2
      exact heq

/- ------------------------------------------------------------------ -/
/- Claims C8 and C4                                                    -/
/- ------------------------------------------------------------------ -/

/-- C8: if `userId` or `accessToken` is absent (falsy), `handleSave`
returns immediately: no request is issued (empty trace), and the quiz
state, local storage, toasts and the saving/progress flags are all left
exactly as they were. -/
theorem handleSave_auth_guard (userId accessToken : String)
    (env : Nat → FetchResult) (s0 : SaveState)
    (h : userId = "" ∨ accessToken = "") :
    handleSave userId accessToken env s0 = ⟨s0, [], .notAuthed⟩ := by
  unfold handleSave
  rw [if_pos h]

/-- C8 witness: a concrete unauthenticated run. -/
theorem handleSave_auth_guard_witness :
    (("" : String) = "" ∨ ("tok" : String) = "") ∧
    handleSave "" "tok" (fun _ => FetchResult.notOk)
      ⟨⟨"", "T", "en", "puzzle", "draft", none, none, []⟩, none, false, none, []⟩ =
      ⟨⟨⟨"", "T", "en", "puzzle", "draft", none, none, []⟩, none, false, none, []⟩,
       [], .notAuthed⟩ :=
  ⟨Or.inl rfl,
   handleSave_auth_guard "" "tok" (fun _ => FetchResult.notOk)
     ⟨⟨"", "T", "en", "puzzle", "draft", none, none, []⟩, none, false, none, []⟩
     (Or.inl rfl)⟩

/- Per-case reductions of the pipeline, by stored id and quiz POST
result. -/
theorem savePipeline_some_fail (u : String) (env : Nat → FetchResult)
    (s0 : SaveState) (qid : String) (hcur : s0.currentQuizId = some qid)
    (hE : (env 1).isOk = false) :
    savePipeline u env s0 =
      ⟨{ quiz := s0.quiz, currentQuizId := some qid, isSaving := false,
         saveProgress := none, toasts := s0.toasts ++ [.error] },
       [.deleteQuiz qid, .postQuiz (quizBody u s0.quiz)], .threw⟩ := by
  rw [savePipeline_eq_some u env s0 qid hcur]
  cases hF : env 1 with
  | ok id =>
    rw [hF] at hE
    simp [FetchResult.isOk] at hE
  | notOk => rfl
  | netErr => rfl

theorem savePipeline_some_ok (u : String) (env : Nat → FetchResult)
    (s0 : SaveState) (qid quizId : String)
    (hcur : s0.currentQuizId = some qid) (hE : env 1 = .ok quizId) :
    savePipeline u env s0 =
      match saveQuestions env quizId s0.quiz.questions 0 s0.quiz.questions.length
          ⟨[.deleteQuiz qid, .postQuiz (quizBody u s0.quiz)], some ⟨.quiz, 1, 1⟩⟩ with
      | (ls4, true) =>
        ⟨{ quiz := { s0.quiz with id := quizId, status := "draft" },
           currentQuizId := some quizId, isSaving := false,
           saveProgress := none, toasts := s0.toasts ++ [.success] },
         ls4.trace, .saved { s0.quiz with id := quizId, status := "draft" }⟩
      | (ls4, false) =>
        ⟨{ quiz := s0.quiz, currentQuizId := some quizId, isSaving := false,
           saveProgress := none, toasts := s0.toasts ++ [.error] },
         ls4.trace, .threw⟩ := by
  rw [savePipeline_eq_some u env s0 qid hcur, hE]

theorem savePipeline_none_fail (u : String) (env : Nat → FetchResult)
    (s0 : SaveState) (hcur : s0.currentQuizId = none)
    (hE : (env 0).isOk = false) :
    savePipeline u env s0 =
      ⟨{ quiz := s0.quiz, currentQuizId := none, isSaving := false,
         saveProgress := none, toasts := s0.toasts ++ [.error] },
       [.postQuiz (quizBody u s0.quiz)], .threw⟩ := by
  rw [savePipeline_eq_none u env s0 hcur]
  cases hF : env 0 with
  | ok id =>
    rw [hF] at hE
    simp [FetchResult.isOk] at hE
  | notOk => rfl
  | netErr => rfl

theorem savePipeline_none_ok (u : String) (env : Nat → FetchResult)
    (s0 : SaveState) (quizId : String)
    (hcur : s0.currentQuizId = none) (hE : env 0 = .ok quizId) :
    savePipeline u env s0 =
      match saveQuestions env quizId s0.quiz.questions 0 s0.quiz.questions.length
          ⟨[.postQuiz (quizBody u s0.quiz)], some ⟨.quiz, 1, 1⟩⟩ with
      | (ls4, true) =>
        ⟨{ quiz := { s0.quiz with id := quizId, status := "draft" },
           currentQuizId := some quizId, isSaving := false,
           saveProgress := none, toasts := s0.toasts ++ [.success] },
         ls4.trace, .saved { s0.quiz with id := quizId, status := "draft" }⟩
      | (ls4, false) =>
        ⟨{ quiz := s0.quiz, currentQuizId := some quizId, isSaving := false,
           saveProgress := none, toasts := s0.toasts ++ [.error] },
         ls4.trace, .threw⟩ := by
  rw [savePipeline_eq_none u env s0 hcur, hE]

/-- C4: when a previously-saved quiz id exists in local storage,
`handleSave` first issues a DELETE of it, and the result of that delete
is irrelevant to everything that follows (it is only logged, never
raised): the run is identical under any two environments that agree
from position 1 on, and the quiz POST is always issued as the second
request, right after the DELETE. -/
theorem handleSave_delete_best_effort (userId accessToken qid : String)
    (env₁ env₂ : Nat → FetchResult) (s0 : SaveState)
    (h1 : userId ≠ "") (h2 : accessToken ≠ "")
    (hcur : s0.currentQuizId = some qid)
    (hagree : ∀ n, 1 ≤ n → env₁ n = env₂ n) :
    handleSave userId accessToken env₁ s0 = handleSave userId accessToken env₂ s0 ∧
    (handleSave userId accessToken env₁ s0).trace.take 2 =
      [Request.deleteQuiz qid, Request.postQuiz (quizBody userId s0.quiz)] := by
  rw [handleSave_eq userId accessToken env₁ s0 h1 h2,
      handleSave_eq userId accessToken env₂ s0 h1 h2]
  have hE : env₁ 1 = env₂ 1 := hagree 1 (Nat.le_refl 1)
  constructor
  · cases hE1 : env₁ 1 with
    | notOk =>
      have hE2 : env₂ 1 = .notOk := by
        rw [← hE]
        exact hE1
      rw [savePipeline_some_fail userId env₁ s0 qid hcur (by rw [hE1]; rfl),
          savePipeline_some_fail userId env₂ s0 qid hcur (by rw [hE2]; rfl)]
    | netErr =>
      have hE2 : env₂ 1 = .netErr := by
        rw [← hE]
        exact hE1
      rw [savePipeline_some_fail userId env₁ s0 qid hcur (by rw [hE1]; rfl),
          savePipeline_some_fail userId env₂ s0 qid hcur (by rw [hE2]; rfl)]
    | ok quizId =>
      have hE2 : env₂ 1 = .ok quizId := by
        rw [← hE]
        exact hE1
      have hagree2 : ∀ n, ((⟨[Request.deleteQuiz qid,
          Request.postQuiz (quizBody userId s0.quiz)],
          some ⟨.quiz, 1, 1⟩⟩ : LoopState)).trace.length ≤ n →
          env₁ n = env₂ n := by
        intro n hn
        apply hagree
        simp only [List.length_cons, List.length_nil] at hn
        omega
      rw [savePipeline_some_ok userId env₁ s0 qid quizId hcur hE1,
          savePipeline_some_ok userId env₂ s0 qid quizId hcur hE2,
          saveQuestions_env_agree env₁ env₂ quizId s0.quiz.questions 0
            s0.quiz.questions.length
            ⟨[.deleteQuiz qid, .postQuiz (quizBody userId s0.quiz)],
             some ⟨.quiz, 1, 1⟩⟩ hagree2]
  · cases hE1 : env₁ 1 with
    | notOk =>
      rw [savePipeline_some_fail userId env₁ s0 qid hcur (by rw [hE1]; rfl)]
      rfl
    | netErr =>
      rw [savePipeline_some_fail userId env₁ s0 qid hcur (by rw [hE1]; rfl)]
      rfl
    | ok quizId =>
      rw [savePipeline_some_ok userId env₁ s0 qid quizId hcur hE1]
      obtain ⟨ext, htr, _, _, _⟩ := saveQuestions_spec env₁ quizId
        s0.quiz.questions 0 s0.quiz.questions.length
        ⟨[.deleteQuiz qid, .postQuiz (quizBody userId s0.quiz)],
         some ⟨.quiz, 1, 1⟩⟩
      cases hsq : saveQuestions env₁ quizId s0.quiz.questions 0
          s0.quiz.questions.length
          ⟨[.deleteQuiz qid, .postQuiz (quizBody userId s0.quiz)],
           some ⟨.quiz, 1, 1⟩⟩ with
      | mk ls4 b =>
        rw [hsq] at htr
        simp only at htr
        cases b with
        | true =>
          show ls4.trace.take 2 = _
          rw [htr]
          rfl
        | false =>
          show ls4.trace.take 2 = _
          rw [htr]
          rfl

/-- C4 witness: a concrete state with a stored quiz id, compared under
an environment failing the delete and one succeeding, agreeing
elsewhere. -/
theorem handleSave_delete_best_effort_witness :
    (("u" : String) ≠ "" ∧ ("t" : String) ≠ "" ∧
     (⟨⟨"", "T", "en", "puzzle", "draft", none, none, []⟩, some "OLD",
       false, none, []⟩ : SaveState).currentQuizId = some "OLD" ∧
     (∀ n : Nat, 1 ≤ n →
       (fun k => if k = 0 then FetchResult.netErr else FetchResult.ok "N") n =
       (fun _ => FetchResult.ok "N") n)) ∧
    (handleSave "u" "t" (fun k => if k = 0 then FetchResult.netErr else FetchResult.ok "N")
        ⟨⟨"", "T", "en", "puzzle", "draft", none, none, []⟩, some "OLD", false, none, []⟩ =
      handleSave "u" "t" (fun _ => FetchResult.ok "N")
        ⟨⟨"", "T", "en", "puzzle", "draft", none, none, []⟩, some "OLD", false, none, []⟩ ∧
     (handleSave "u" "t" (fun k => if k = 0 then FetchResult.netErr else FetchResult.ok "N")
        ⟨⟨"", "T", "en", "puzzle", "draft", none, none, []⟩, some "OLD", false, none, []⟩).trace.take 2 =
       [Request.deleteQuiz "OLD",
        Request.postQuiz (quizBody "u" ⟨"", "T", "en", "puzzle", "draft", none, none, []⟩)]) :=
  ⟨⟨by decide, by decide, rfl, fun n hn => by
      have hnz : n ≠ 0 := by omega
      simp [hnz]⟩,
   handleSave_delete_best_effort "u" "t" "OLD"
     (fun k => if k = 0 then FetchResult.netErr else FetchResult.ok "N")
     (fun _ => FetchResult.ok "N")
     ⟨⟨"", "T", "en", "puzzle", "draft", none, none, []⟩, some "OLD", false, none, []⟩
     (by decide) (by decide) rfl
     (fun n hn => by
       have hnz : n ≠ 0 := by omega
       simp [hnz])⟩

/- ------------------------------------------------------------------ -/
/- Claims C3 and C9                                                    -/
/- ------------------------------------------------------------------ -/

/-- C3: the requests of one successful run of `handleSave` are exactly,
in order: the DELETE of the previously-saved quiz id when one exists,
then the quiz POST, then for each question in list order its POST
followed by one POST per image URL in order and one POST per choice in
order.  The embedding issues requests into a single sequential trace,
one `await` at a time, so this also expresses that no two requests are
in flight concurrently. -/
theorem handleSave_success_request_sequence (userId accessToken : String)
    (env : Nat → FetchResult) (s0 : SaveState) (q' : Quiz)
    (h1 : userId ≠ "") (h2 : accessToken ≠ "")
    (hout : (handleSave userId accessToken env s0).outcome = .saved q') :
    (handleSave userId accessToken env s0).trace.map Request.shape =
      expectedShapes s0 := by
  rw [handleSave_eq userId accessToken env s0 h1 h2] at hout ⊢
  cases hcur : s0.currentQuizId with
  | some qid =>
    cases hE : env 1 with
    | notOk =>
      rw [savePipeline_some_fail userId env s0 qid hcur (by rw [hE]; rfl)] at hout
      simp at hout
    | netErr =>
      rw [savePipeline_some_fail userId env s0 qid hcur (by rw [hE]; rfl)] at hout
      simp at hout
    | ok quizId =>
      rw [savePipeline_some_ok userId env s0 qid quizId hcur hE] at hout ⊢
      obtain ⟨ext, htr, hdel, hsucc, hfail⟩ := saveQuestions_spec env quizId
        s0.quiz.questions 0 s0.quiz.questions.length
        ⟨[.deleteQuiz qid, .postQuiz (quizBody userId s0.quiz)], some ⟨.quiz, 1, 1⟩⟩
      cases hsq : saveQuestions env quizId s0.quiz.questions 0
          s0.quiz.questions.length
          ⟨[.deleteQuiz qid, .postQuiz (quizBody userId s0.quiz)],
           some ⟨.quiz, 1, 1⟩⟩ with
      | mk ls4 b =>
        rw [hsq] at hout htr hsucc
        simp only at htr hsucc
        cases b with
        | false => simp at hout
        | true =>
          obtain ⟨hsh, _⟩ := hsucc rfl
          show ls4.trace.map Request.shape = expectedShapes s0
          rw [htr, List.map_append, hsh]
          unfold expectedShapes
          rw [hcur]
          rfl
  | none =>
    cases hE : env 0 with
    | notOk =>
      rw [savePipeline_none_fail userId env s0 hcur (by rw [hE]; rfl)] at hout
      simp at hout
    | netErr =>
      rw [savePipeline_none_fail userId env s0 hcur (by rw [hE]; rfl)] at hout
      simp at hout
    | ok quizId =>
      rw [savePipeline_none_ok userId env s0 quizId hcur hE] at hout ⊢
      obtain ⟨ext, htr, hdel, hsucc, hfail⟩ := saveQuestions_spec env quizId
        s0.quiz.questions 0 s0.quiz.questions.length
        ⟨[.postQuiz (quizBody userId s0.quiz)], some ⟨.quiz, 1, 1⟩⟩
      cases hsq : saveQuestions env quizId s0.quiz.questions 0
          s0.quiz.questions.length
          ⟨[.postQuiz (quizBody userId s0.quiz)], some ⟨.quiz, 1, 1⟩⟩ with
      | mk ls4 b =>
        rw [hsq] at hout htr hsucc
        simp only at htr hsucc
        cases b with
        | false => simp at hout
        | true =>
          obtain ⟨hsh, _⟩ := hsucc rfl
          show ls4.trace.map Request.shape = expectedShapes s0
          rw [htr, List.map_append, hsh]
          unfold expectedShapes
          rw [hcur]
          rfl

/-- C3 witness: a successful run over one question with one image and
one choice, with no previously-saved id. -/
theorem handleSave_success_request_sequence_witness :
    (("u" : String) ≠ "" ∧ ("t" : String) ≠ "" ∧
     (handleSave "u" "t" (fun _ => FetchResult.ok "S")
        ⟨⟨"", "T", "en", "puzzle", "draft", some 30, some 10,
          [⟨"q1", "puzzle", "txt", none, ["img1"],
            [⟨"c1", "x", true, none, none, none, 0⟩]⟩]⟩,
         none, false, none, []⟩).outcome =
       .saved ⟨"S", "T", "en", "puzzle", "draft", some 30, some 10,
          [⟨"q1", "puzzle", "txt", none, ["img1"],
            [⟨"c1", "x", true, none, none, none, 0⟩]⟩]⟩) ∧
    (handleSave "u" "t" (fun _ => FetchResult.ok "S")
        ⟨⟨"", "T", "en", "puzzle", "draft", some 30, some 10,
          [⟨"q1", "puzzle", "txt", none, ["img1"],
            [⟨"c1", "x", true, none, none, none, 0⟩]⟩]⟩,
         none, false, none, []⟩).trace.map Request.shape =
      expectedShapes ⟨⟨"", "T", "en", "puzzle", "draft", some 30, some 10,
          [⟨"q1", "puzzle", "txt", none, ["img1"],
            [⟨"c1", "x", true, none, none, none, 0⟩]⟩]⟩,
         none, false, none, []⟩ :=
  ⟨⟨by decide, by decide, by decide⟩,
   handleSave_success_request_sequence "u" "t" (fun _ => FetchResult.ok "S")
     ⟨⟨"", "T", "en", "puzzle", "draft", some 30, some 10,
       [⟨"q1", "puzzle", "txt", none, ["img1"],
         [⟨"c1", "x", true, none, none, none, 0⟩]⟩]⟩,
      none, false, none, []⟩
     ⟨"S", "T", "en", "puzzle", "draft", some 30, some 10,
       [⟨"q1", "puzzle", "txt", none, ["img1"],
         [⟨"c1", "x", true, none, none, none, 0⟩]⟩]⟩
     (by decide) (by decide) (by decide)⟩

/-- C9: the quiz create request is always issued right after the
optional delete, its body always carries status draft, substitutes
timeLimit 30 and points 10 exactly when the corresponding quiz field is
falsy (absent or 0), and keeps non-zero values; on success the
in-memory quiz is set to status draft with the server-assigned id. -/
theorem handleSave_quiz_create_body (userId accessToken : String)
    (env : Nat → FetchResult) (s0 : SaveState)
    (h1 : userId ≠ "") (h2 : accessToken ≠ "") :
    (handleSave userId accessToken env s0).trace[deletePrefixLen s0]? =
      some (.postQuiz (quizBody userId s0.quiz)) ∧
    (quizBody userId s0.quiz).status = "draft" ∧
    ((s0.quiz.timeLimit = none ∨ s0.quiz.timeLimit = some 0) →
      (quizBody userId s0.quiz).timeLimit = 30) ∧
    (∀ n, s0.quiz.timeLimit = some (n + 1) →
      (quizBody userId s0.quiz).timeLimit = n + 1) ∧
    ((s0.quiz.points = none ∨ s0.quiz.points = some 0) →
      (quizBody userId s0.quiz).points = 10) ∧
    (∀ n, s0.quiz.points = some (n + 1) →
      (quizBody userId s0.quiz).points = n + 1) ∧
    (∀ q', (handleSave userId accessToken env s0).outcome = .saved q' →
      q'.status = "draft" ∧ env (deletePrefixLen s0) = .ok q'.id ∧
      (handleSave userId accessToken env s0).state.quiz = q') := by
  rw [handleSave_eq userId accessToken env s0 h1 h2]
  refine ⟨?_, rfl, ?_, ?_, ?_, ?_, ?_⟩
  · cases hcur : s0.currentQuizId with
    | some qid =>
      have hdpl : deletePrefixLen s0 = 1 := by
        unfold deletePrefixLen
        rw [hcur]
      rw [hdpl]
      cases hE : env 1 with
      | notOk =>
        rw [savePipeline_some_fail userId env s0 qid hcur (by rw [hE]; rfl)]
        rfl
      | netErr =>
        rw [savePipeline_some_fail userId env s0 qid hcur (by rw [hE]; rfl)]
        rfl
      | ok quizId =>
        rw [savePipeline_some_ok userId env s0 qid quizId hcur hE]
        obtain ⟨ext, htr, _, _, _⟩ := saveQuestions_spec env quizId
          s0.quiz.questions 0 s0.quiz.questions.length
          ⟨[.deleteQuiz qid, .postQuiz (quizBody userId s0.quiz)],
           some ⟨.quiz, 1, 1⟩⟩
        cases hsq : saveQuestions env quizId s0.quiz.questions 0
            s0.quiz.questions.length
            ⟨[.deleteQuiz qid, .postQuiz (quizBody userId s0.quiz)],
             some ⟨.quiz, 1, 1⟩⟩ with
        | mk ls4 b =>
          rw [hsq] at htr
          simp only at htr
          have hlt : 1 < ([Request.deleteQuiz qid,
              Request.postQuiz (quizBody userId s0.quiz)] : List Request).length := by
            simp
          cases b with
          | true =>
            show ls4.trace[1]? = _
            rw [htr, List.getElem?_append_left hlt]
            rfl
          | false =>
            show ls4.trace[1]? = _
            rw [htr, List.getElem?_append_left hlt]
            rfl
    | none =>
      have hdpl : deletePrefixLen s0 = 0 := by
        unfold deletePrefixLen
        rw [hcur]
      rw [hdpl]
      cases hE : env 0 with
      | notOk =>
        rw [savePipeline_none_fail userId env s0 hcur (by rw [hE]; rfl)]
        rfl
      | netErr =>
        rw [savePipeline_none_fail userId env s0 hcur (by rw [hE]; rfl)]
        rfl
      | ok quizId =>
        rw [savePipeline_none_ok userId env s0 quizId hcur hE]
        obtain ⟨ext, htr, _, _, _⟩ := saveQuestions_spec env quizId
          s0.quiz.questions 0 s0.quiz.questions.length
          ⟨[.postQuiz (quizBody userId s0.quiz)], some ⟨.quiz, 1, 1⟩⟩
        cases hsq : saveQuestions env quizId s0.quiz.questions 0
            s0.quiz.questions.length
            ⟨[.postQuiz (quizBody userId s0.quiz)], some ⟨.quiz, 1, 1⟩⟩ with
        | mk ls4 b =>
          rw [hsq] at htr
          simp only at htr
          have hlt : 0 < ([Request.postQuiz (quizBody userId s0.quiz)] :
              List Request).length := by
            simp
          cases b with
          | true =>
            show ls4.trace[0]? = _
            rw [htr, List.getElem?_append_left hlt]
            rfl
          | false =>
            show ls4.trace[0]? = _
            rw [htr, List.getElem?_append_left hlt]
            rfl
  · rintro (h | h) <;> simp [quizBody, jsOrNat, h]
  · intro n h
    simp [quizBody, jsOrNat, h]
  · rintro (h | h) <;> simp [quizBody, jsOrNat, h]
  · intro n h
    simp [quizBody, jsOrNat, h]
  · intro q' hq'
    cases hcur : s0.currentQuizId with
    | some qid =>
      have hdpl : deletePrefixLen s0 = 1 := by
        unfold deletePrefixLen
        rw [hcur]
      rw [hdpl]
      cases hE : env 1 with
      | notOk =>
        rw [savePipeline_some_fail userId env s0 qid hcur (by rw [hE]; rfl)] at hq'
        simp at hq'
      | netErr =>
        rw [savePipeline_some_fail userId env s0 qid hcur (by rw [hE]; rfl)] at hq'
        simp at hq'
      | ok quizId =>
        rw [savePipeline_some_ok userId env s0 qid quizId hcur hE] at hq' ⊢
        cases hsq : saveQuestions env quizId s0.quiz.questions 0
            s0.quiz.questions.length
            ⟨[.deleteQuiz qid, .postQuiz (quizBody userId s0.quiz)],
             some ⟨.quiz, 1, 1⟩⟩ with
        | mk ls4 b =>
          rw [hsq] at hq'
          cases b with
          | false => simp at hq'
          | true =>
            have hq2 : ({ s0.quiz with id := quizId, status := "draft" } : Quiz) = q' := by
              simpa using hq'
            rw [← hq2]
            exact ⟨rfl, rfl, rfl⟩
    | none =>
      have hdpl : deletePrefixLen s0 = 0 := by
        unfold deletePrefixLen
        rw [hcur]
      rw [hdpl]
      cases hE : env 0 with
      | notOk =>
        rw [savePipeline_none_fail userId env s0 hcur (by rw [hE]; rfl)] at hq'
        simp at hq'
      | netErr =>
        rw [savePipeline_none_fail userId env s0 hcur (by rw [hE]; rfl)] at hq'
        simp at hq'
      | ok quizId =>
        rw [savePipeline_none_ok userId env s0 quizId hcur hE] at hq' ⊢
        cases hsq : saveQuestions env quizId s0.quiz.questions 0
            s0.quiz.questions.length
            ⟨[.postQuiz (quizBody userId s0.quiz)], some ⟨.quiz, 1, 1⟩⟩ with
        | mk ls4 b =>
          rw [hsq] at hq'
          cases b with
          | false => simp at hq'
          | true =>
            have hq2 : ({ s0.quiz with id := quizId, status := "draft" } : Quiz) = q' := by
              simpa using hq'
            rw [← hq2]
            exact ⟨rfl, rfl, rfl⟩

/-- C9 witness: a quiz with timeLimit 0 and points absent, saved
successfully under an all-ok environment. -/
theorem handleSave_quiz_create_body_witness :
    (("u" : String) ≠ "" ∧ ("t" : String) ≠ "") ∧
    ((handleSave "u" "t" (fun _ => FetchResult.ok "S")
        ⟨⟨"", "T", "en", "puzzle", "published", some 0, none, []⟩,
         none, false, none, []⟩).trace[deletePrefixLen
        ⟨⟨"", "T", "en", "puzzle", "published", some 0, none, []⟩,
         none, false, none, []⟩]? =
       some (.postQuiz (quizBody "u"
         ⟨"", "T", "en", "puzzle", "published", some 0, none, []⟩)) ∧
     (quizBody "u" ⟨"", "T", "en", "puzzle", "published", some 0, none, []⟩).status =
       "draft" ∧
     (((⟨"", "T", "en", "puzzle", "published", some 0, none, []⟩ : Quiz).timeLimit = none ∨
       (⟨"", "T", "en", "puzzle", "published", some 0, none, []⟩ : Quiz).timeLimit = some 0) →
      (quizBody "u" ⟨"", "T", "en", "puzzle", "published", some 0, none, []⟩).timeLimit = 30) ∧
     (∀ n, (⟨"", "T", "en", "puzzle", "published", some 0, none, []⟩ : Quiz).timeLimit =
         some (n + 1) →
      (quizBody "u" ⟨"", "T", "en", "puzzle", "published", some 0, none, []⟩).timeLimit = n + 1) ∧
     (((⟨"", "T", "en", "puzzle", "published", some 0, none, []⟩ : Quiz).points = none ∨
       (⟨"", "T", "en", "puzzle", "published", some 0, none, []⟩ : Quiz).points = some 0) →
      (quizBody "u" ⟨"", "T", "en", "puzzle", "published", some 0, none, []⟩).points = 10) ∧
     (∀ n, (⟨"", "T", "en", "puzzle", "published", some 0, none, []⟩ : Quiz).points =
         some (n + 1) →
      (quizBody "u" ⟨"", "T", "en", "puzzle", "published", some 0, none, []⟩).points = n + 1) ∧
     (∀ q', (handleSave "u" "t" (fun _ => FetchResult.ok "S")
          ⟨⟨"", "T", "en", "puzzle", "published", some 0, none, []⟩,
           none, false, none, []⟩).outcome = .saved q' →
       q'.status = "draft" ∧
       (fun _ => FetchResult.ok "S") (deletePrefixLen
          ⟨⟨"", "T", "en", "puzzle", "published", some 0, none, []⟩,
           none, false, none, []⟩) = FetchResult.ok q'.id ∧
       (handleSave "u" "t" (fun _ => FetchResult.ok "S")
          ⟨⟨"", "T", "en", "puzzle", "published", some 0, none, []⟩,
           none, false, none, []⟩).state.quiz = q')) :=
  ⟨⟨by decide, by decide⟩,
   handleSave_quiz_create_body "u" "t" (fun _ => FetchResult.ok "S")
     ⟨⟨"", "T", "en", "puzzle", "published", some 0, none, []⟩,
      none, false, none, []⟩ (by decide) (by decide)⟩

/- ------------------------------------------------------------------ -/
/- Claims C5 and C2                                                    -/
/- ------------------------------------------------------------------ -/

/-- C5: `handleSave` never issues a compensating or rollback request:
beyond the optional initial DELETE of the previously-saved id, no
request of any run (successful or aborted partway) is a DELETE.  The
trace is append-only by construction, so every request sent before a
failure stays sent, and a failure partway leaves the records already
POSTed in place on the server. -/
theorem handleSave_no_rollback (userId accessToken : String)
    (env : Nat → FetchResult) (s0 : SaveState)
    (h1 : userId ≠ "") (h2 : accessToken ≠ "") :
    ∀ r ∈ (handleSave userId accessToken env s0).trace.drop (deletePrefixLen s0),
      r.isDelete = false := by
  rw [handleSave_eq userId accessToken env s0 h1 h2]
  cases hcur : s0.currentQuizId with
  | some qid =>
    have hdpl : deletePrefixLen s0 = 1 := by
      unfold deletePrefixLen
      rw [hcur]
    rw [hdpl]
    cases hE : env 1 with
    | notOk =>
      rw [savePipeline_some_fail userId env s0 qid hcur (by rw [hE]; rfl)]
      intro r hr
      simp at hr
      simp [hr, Request.isDelete]
    | netErr =>
      rw [savePipeline_some_fail userId env s0 qid hcur (by rw [hE]; rfl)]
      intro r hr
      simp at hr
      simp [hr, Request.isDelete]
    | ok quizId =>
      rw [savePipeline_some_ok userId env s0 qid quizId hcur hE]
      obtain ⟨ext, htr, hdel, _, _⟩ := saveQuestions_spec env quizId
        s0.quiz.questions 0 s0.quiz.questions.length
        ⟨[.deleteQuiz qid, .postQuiz (quizBody userId s0.quiz)], some ⟨.quiz, 1, 1⟩⟩
      cases hsq : saveQuestions env quizId s0.quiz.questions 0
          s0.quiz.questions.length
          ⟨[.deleteQuiz qid, .postQuiz (quizBody userId s0.quiz)],
           some ⟨.quiz, 1, 1⟩⟩ with
      | mk ls4 b =>
        rw [hsq] at htr
        simp only at htr
        have hmain : ∀ r ∈ ls4.trace.drop 1, r.isDelete = false := by
          rw [htr]
          show ∀ r ∈ (Request.postQuiz (quizBody userId s0.quiz) :: ext), _
          intro r hr
          rcases List.mem_cons.mp hr with hr | hr
          · simp [hr, Request.isDelete]
          · exact hdel r hr
        cases b with
        | true => exact hmain
        | false => exact hmain
  | none =>
    have hdpl : deletePrefixLen s0 = 0 := by
      unfold deletePrefixLen
      rw [hcur]
    rw [hdpl]
    cases hE : env 0 with
    | notOk =>
      rw [savePipeline_none_fail userId env s0 hcur (by rw [hE]; rfl)]
      intro r hr
      simp at hr
      simp [hr, Request.isDelete]
    | netErr =>
      rw [savePipeline_none_fail userId env s0 hcur (by rw [hE]; rfl)]
      intro r hr
      simp at hr
      simp [hr, Request.isDelete]
    | ok quizId =>
      rw [savePipeline_none_ok userId env s0 quizId hcur hE]
      obtain ⟨ext, htr, hdel, _, _⟩ := saveQuestions_spec env quizId
        s0.quiz.questions 0 s0.quiz.questions.length
        ⟨[.postQuiz (quizBody userId s0.quiz)], some ⟨.quiz, 1, 1⟩⟩
      cases hsq : saveQuestions env quizId s0.quiz.questions 0
          s0.quiz.questions.length
          ⟨[.postQuiz (quizBody userId s0.quiz)], some ⟨.quiz, 1, 1⟩⟩ with
      | mk ls4 b =>
        rw [hsq] at htr
        simp only at htr
        have hmain : ∀ r ∈ ls4.trace.drop 0, r.isDelete = false := by
          rw [List.drop_zero, htr]
          show ∀ r ∈ (Request.postQuiz (quizBody userId s0.quiz) :: ext), _
          intro r hr
          rcases List.mem_cons.mp hr with hr | hr
          · simp [hr, Request.isDelete]
          · exact hdel r hr
        cases b with
        | true => exact hmain
        | false => exact hmain

/-- C5 witness: a run that fails at the question create (after the quiz
was created) issues no deletes beyond the initial one. -/
theorem handleSave_no_rollback_witness :
    (("u" : String) ≠ "" ∧ ("t" : String) ≠ "") ∧
    (∀ r ∈ (handleSave "u" "t"
        (fun n => if n = 2 then FetchResult.notOk else FetchResult.ok "S")
        ⟨⟨"", "T", "en", "puzzle", "draft", some 30, some 10,
          [⟨"q1", "puzzle", "txt", none, [], []⟩]⟩,
         some "OLD", false, none, []⟩).trace.drop (deletePrefixLen
        ⟨⟨"", "T", "en", "puzzle", "draft", some 30, some 10,
          [⟨"q1", "puzzle", "txt", none, [], []⟩]⟩,
         some "OLD", false, none, []⟩),
      r.isDelete = false) :=
  ⟨⟨by decide, by decide⟩,
   handleSave_no_rollback "u" "t"
     (fun n => if n = 2 then FetchResult.notOk else FetchResult.ok "S")
     ⟨⟨"", "T", "en", "puzzle", "draft", some 30, some 10,
       [⟨"q1", "puzzle", "txt", none, [], []⟩]⟩,
      some "OLD", false, none, []⟩
     (by decide) (by decide)⟩

/-- C2 counterexample: a concrete run in which the question-image
create receives a non-ok (failed) response at trace position 2, yet the
pipeline does not abort: a further request (the choice create, position
3) is issued, no error toast is surfaced, and the run ends in success.
This refutes the claim that a failed response to every create aborts
the pipeline and surfaces an error toast. -/
theorem image_create_notOk_does_not_abort :
    (handleSave "u" "t"
        (fun n => if n = 2 then FetchResult.notOk else FetchResult.ok "S")
        ⟨⟨"", "T", "en", "puzzle", "draft", some 30, some 10,
          [⟨"q1", "puzzle", "txt", none, ["img1"],
            [⟨"c1", "x", true, none, none, none, 0⟩]⟩]⟩,
         none, false, none, []⟩).trace[2]? =
      some (.postImage ⟨"S", "img1"⟩) ∧
    (if (2 : Nat) = 2 then FetchResult.notOk else FetchResult.ok "S") =
      FetchResult.notOk ∧
    (handleSave "u" "t"
        (fun n => if n = 2 then FetchResult.notOk else FetchResult.ok "S")
        ⟨⟨"", "T", "en", "puzzle", "draft", some 30, some 10,
          [⟨"q1", "puzzle", "txt", none, ["img1"],
            [⟨"c1", "x", true, none, none, none, 0⟩]⟩]⟩,
         none, false, none, []⟩).trace[3]? =
      some (.postChoice ⟨"S", "x", true, none, none, none, 0⟩) ∧
    (handleSave "u" "t"
        (fun n => if n = 2 then FetchResult.notOk else FetchResult.ok "S")
        ⟨⟨"", "T", "en", "puzzle", "draft", some 30, some 10,
          [⟨"q1", "puzzle", "txt", none, ["img1"],
            [⟨"c1", "x", true, none, none, none, 0⟩]⟩]⟩,
         none, false, none, []⟩).state.toasts = [Toast.success] ∧
    (handleSave "u" "t"
        (fun n => if n = 2 then FetchResult.notOk else FetchResult.ok "S")
        ⟨⟨"", "T", "en", "puzzle", "draft", some 30, some 10,
          [⟨"q1", "puzzle", "txt", none, ["img1"],
            [⟨"c1", "x", true, none, none, none, 0⟩]⟩]⟩,
         none, false, none, []⟩).outcome =
      .saved ⟨"S", "T", "en", "puzzle", "draft", some 30, some 10,
          [⟨"q1", "puzzle", "txt", none, ["img1"],
            [⟨"c1", "x", true, none, none, none, 0⟩]⟩]⟩ := by
  refine ⟨by decide, by decide, by decide, by decide, by decide⟩

/-- C2 amended: a failed (non-ok) response to the quiz create or to a
question create aborts the pipeline — the failing request is the last
one issued — and surfaces the generic error toast, as does a
network-level rejection of an image or choice create; but a non-ok
response to an image or choice create is not checked, and the pipeline
continues.  Precisely: a thrown run surfaces the error toast and its
trace ends with a request whose result is fatal for its kind
(`fatalReq`: non-ok on quiz/question creates, rejection on image/choice
creates, nothing on the delete), and a successful run received no
fatal result on any request. -/
theorem handleSave_abort_characterization (userId accessToken : String)
    (env : Nat → FetchResult) (s0 : SaveState)
    (h1 : userId ≠ "") (h2 : accessToken ≠ "") :
    ((handleSave userId accessToken env s0).outcome = .threw →
      (handleSave userId accessToken env s0).state.toasts = s0.toasts ++ [.error] ∧
      ∃ pre r, (handleSave userId accessToken env s0).trace = pre ++ [r] ∧
        fatalReq r (env pre.length) = true) ∧
    (∀ q', (handleSave userId accessToken env s0).outcome = .saved q' →
      noFatal env 0 (handleSave userId accessToken env s0).trace) := by
  rw [handleSave_eq userId accessToken env s0 h1 h2]
  cases hcur : s0.currentQuizId with
  | some qid =>
    cases hE : env 1 with
    | notOk =>
      rw [savePipeline_some_fail userId env s0 qid hcur (by rw [hE]; rfl)]
      constructor
      · intro _
        refine ⟨rfl, [Request.deleteQuiz qid],
          .postQuiz (quizBody userId s0.quiz), rfl, ?_⟩
        simp [hE, fatalReq, FetchResult.isOk]
      · intro q' hq'
        simp at hq'
    | netErr =>
      rw [savePipeline_some_fail userId env s0 qid hcur (by rw [hE]; rfl)]
      constructor
      · intro _
        refine ⟨rfl, [Request.deleteQuiz qid],
          .postQuiz (quizBody userId s0.quiz), rfl, ?_⟩
        simp [hE, fatalReq, FetchResult.isOk]
      · intro q' hq'
        simp at hq'
    | ok quizId =>
      rw [savePipeline_some_ok userId env s0 qid quizId hcur hE]
      obtain ⟨ext, htr, hdel, hsucc, hfail⟩ := saveQuestions_spec env quizId
        s0.quiz.questions 0 s0.quiz.questions.length
        ⟨[.deleteQuiz qid, .postQuiz (quizBody userId s0.quiz)], some ⟨.quiz, 1, 1⟩⟩
      cases hsq : saveQuestions env quizId s0.quiz.questions 0
          s0.quiz.questions.length
          ⟨[.deleteQuiz qid, .postQuiz (quizBody userId s0.quiz)],
           some ⟨.quiz, 1, 1⟩⟩ with
      | mk ls4 b =>
        rw [hsq] at htr hsucc hfail
        simp only at htr hsucc hfail
        cases b with
        | false =>
          obtain ⟨preE, rE, hxE, hfatE⟩ := hfail rfl
          constructor
          · intro _
            refine ⟨rfl, Request.deleteQuiz qid ::
              Request.postQuiz (quizBody userId s0.quiz) :: preE, rE, ?_, ?_⟩
            · show ls4.trace = _
              rw [htr, hxE]
              simp
            · have harg : (Request.deleteQuiz qid ::
                  Request.postQuiz (quizBody userId s0.quiz) :: preE).length =
                  ([Request.deleteQuiz qid,
                    Request.postQuiz (quizBody userId s0.quiz)] :
                   List Request).length + preE.length := by
                simp
                omega
              rw [harg]
              exact hfatE
          · intro q' hq'
            simp at hq'
        | true =>
          obtain ⟨_, hnf⟩ := hsucc rfl
          constructor
          · intro hth
            simp at hth
          · intro q' _
            show noFatal env 0 ls4.trace
            rw [htr]
            show noFatal env 0 ([Request.deleteQuiz qid,
              Request.postQuiz (quizBody userId s0.quiz)] ++ ext)
            refine noFatal_append _ ext 0 ?_ ?_
            · refine noFatal_cons rfl (noFatal_cons ?_ (noFatal_nil env (0 + 1 + 1)))
              simp [hE, fatalReq, FetchResult.isOk]
            · exact hnf
  | none =>
    cases hE : env 0 with
    | notOk =>
      rw [savePipeline_none_fail userId env s0 hcur (by rw [hE]; rfl)]
      constructor
      · intro _
        refine ⟨rfl, [], .postQuiz (quizBody userId s0.quiz), rfl, ?_⟩
        simp [hE, fatalReq, FetchResult.isOk]
      · intro q' hq'
        simp at hq'
    | netErr =>
      rw [savePipeline_none_fail userId env s0 hcur (by rw [hE]; rfl)]
      constructor
      · intro _
        refine ⟨rfl, [], .postQuiz (quizBody userId s0.quiz), rfl, ?_⟩
        simp [hE, fatalReq, FetchResult.isOk]
      · intro q' hq'
        simp at hq'
    | ok quizId =>
      rw [savePipeline_none_ok userId env s0 quizId hcur hE]
      obtain ⟨ext, htr, hdel, hsucc, hfail⟩ := saveQuestions_spec env quizId
        s0.quiz.questions 0 s0.quiz.questions.length
        ⟨[.postQuiz (quizBody userId s0.quiz)], some ⟨.quiz, 1, 1⟩⟩
      cases hsq : saveQuestions env quizId s0.quiz.questions 0
          s0.quiz.questions.length
          ⟨[.postQuiz (quizBody userId s0.quiz)], some ⟨.quiz, 1, 1⟩⟩ with
      | mk ls4 b =>
        rw [hsq] at htr hsucc hfail
        simp only at htr hsucc hfail
        cases b with
        | false =>
          obtain ⟨preE, rE, hxE, hfatE⟩ := hfail rfl
          constructor
          · intro _
            refine ⟨rfl, Request.postQuiz (quizBody userId s0.quiz) :: preE,
              rE, ?_, ?_⟩
            · show ls4.trace = _
              rw [htr, hxE]
              simp
            · have harg : (Request.postQuiz (quizBody userId s0.quiz) ::
                  preE).length =
                  ([Request.postQuiz (quizBody userId s0.quiz)] :
                   List Request).length + preE.length := by
                simp
                omega
              rw [harg]
              exact hfatE
          · intro q' hq'
            simp at hq'
        | true =>
          obtain ⟨_, hnf⟩ := hsucc rfl
          constructor
          · intro hth
            simp at hth
          · intro q' _
            show noFatal env 0 ls4.trace
            rw [htr]
            show noFatal env 0 ([Request.postQuiz (quizBody userId s0.quiz)] ++ ext)
            refine noFatal_append _ ext 0 ?_ ?_
            · refine noFatal_cons ?_ (noFatal_nil env (0 + 1))
              simp [hE, fatalReq, FetchResult.isOk]
            · exact hnf

/-- C2 amended witness: a run whose question create gets a non-ok
response: the pipeline aborts right there with the error toast. -/
theorem handleSave_abort_characterization_witness :
    (("u" : String) ≠ "" ∧ ("t" : String) ≠ "") ∧
    (((handleSave "u" "t"
        (fun n => if n = 1 then FetchResult.notOk else FetchResult.ok "S")
        ⟨⟨"", "T", "en", "puzzle", "draft", some 30, some 10,
          [⟨"q1", "puzzle", "txt", none, [], []⟩]⟩,
         none, false, none, []⟩).outcome = .threw →
      (handleSave "u" "t"
        (fun n => if n = 1 then FetchResult.notOk else FetchResult.ok "S")
        ⟨⟨"", "T", "en", "puzzle", "draft", some 30, some 10,
          [⟨"q1", "puzzle", "txt", none, [], []⟩]⟩,
         none, false, none, []⟩).state.toasts = [] ++ [.error] ∧
      ∃ pre r, (handleSave "u" "t"
        (fun n => if n = 1 then FetchResult.notOk else FetchResult.ok "S")
        ⟨⟨"", "T", "en", "puzzle", "draft", some 30, some 10,
          [⟨"q1", "puzzle", "txt", none, [], []⟩]⟩,
         none, false, none, []⟩).trace = pre ++ [r] ∧
        fatalReq r ((fun n => if n = 1 then FetchResult.notOk else FetchResult.ok "S")
          pre.length) = true) ∧
    (∀ q', (handleSave "u" "t"
        (fun n => if n = 1 then FetchResult.notOk else FetchResult.ok "S")
        ⟨⟨"", "T", "en", "puzzle", "draft", some 30, some 10,
          [⟨"q1", "puzzle", "txt", none, [], []⟩]⟩,
         none, false, none, []⟩).outcome = .saved q' →
      noFatal (fun n => if n = 1 then FetchResult.notOk else FetchResult.ok "S") 0
        (handleSave "u" "t"
          (fun n => if n = 1 then FetchResult.notOk else FetchResult.ok "S")
          ⟨⟨"", "T", "en", "puzzle", "draft", some 30, some 10,
            [⟨"q1", "puzzle", "txt", none, [], []⟩]⟩,
           none, false, none, []⟩).trace)) :=
  ⟨⟨by decide, by decide⟩,
   handleSave_abort_characterization "u" "t"
     (fun n => if n = 1 then FetchResult.notOk else FetchResult.ok "S")
     ⟨⟨"", "T", "en", "puzzle", "draft", some 30, some 10,
       [⟨"q1", "puzzle", "txt", none, [], []⟩]⟩,
      none, false, none, []⟩
     (by decide) (by decide)⟩

end Quizphere
